import Mathlib

/-!
Shallow embedding of the `ErasureCoding` repository: the `SimpleParityScheme`
erasure code (`src/erasure/simple_parity.rs`), storage nodes
(`src/storage/node.rs`), the cluster coordination layer
(`src/storage/cluster.rs`) and the recovery coordinator
(`src/simulation/recovery.rs`), together with proofs about the claims of the
specification.

Bytes are modelled as `Nat` (the code only XORs them, which cannot overflow a
byte), chunks as `List Nat`, Rust `HashMap`s as association lists.  Fallible
Rust code returning `Result` is modelled with an explicit error inductive; a
Rust panic (out-of-bounds slice index) is modelled as a distinguished
`panicked` outcome.
-/

/-- A chunk of bytes. -/
abbrev Chunk := List Nat

/-- Every error string produced by the modelled part of the repository,
as one inductive. -/
inductive EErr where
  | wrongChunkCount
  | insufficientChunks
  | noParityChunkAvailable
  | unsupportedRecovery
  | schemeNotConfigured
  | insufficientNodes
  | nodeUnavailable
  | nodeNotFound
deriving DecidableEq, Repr

/-- Outcome of an operation that may return `Ok`, return `Err`, or panic
(Rust index-out-of-bounds abort). -/
inductive DResult (α : Type) where
  | ok : α → DResult α
  | err : EErr → DResult α
  | panicked : DResult α
deriving DecidableEq, Repr

/-- `SimpleParityScheme` from `simple_parity.rs`: `k` data chunks and `m`
parity chunks, fixed at construction. -/
structure SimpleParityScheme where
  data_chunks : Nat
  parity_chunks : Nat
deriving DecidableEq, Repr

namespace SimpleParityScheme

/-- `total_chunks` from the `ErasureScheme` trait: `k + m`. -/
def total_chunks (s : SimpleParityScheme) : Nat :=
  s.data_chunks + s.parity_chunks

/-- `can_recover`: recovery is possible when at least `k` chunks are
available. -/
def can_recover (s : SimpleParityScheme) (available : Nat) : Bool :=
  decide (s.data_chunks ≤ available)

/-- Pad a list with trailing zero bytes to length `n`
(Rust `chunk.resize(chunk_size, 0)`; never truncates at its call sites,
where `l.length ≤ n`). -/
def padTo (n : Nat) (l : Chunk) : Chunk :=
  l ++ List.replicate (n - l.length) 0

/-- `split_data`: split `data` into `k` chunks of size
`ceil (len / k)`, zero-padding the tail; empty input yields `k` empty
chunks.  (The Rust code divides by `data_chunks`, so like the source this
is only meaningful for `data_chunks ≥ 1`; with `data_chunks = 0` and
non-empty data the source panics on division by zero, a case no theorem
below touches.) -/
def split_data (s : SimpleParityScheme) (data : List Nat) : List Chunk :=
  if data.length = 0 then
    List.replicate s.data_chunks []
  else
    let chunkSize := (data.length + s.data_chunks - 1) / s.data_chunks
    (List.range s.data_chunks).map (fun i =>
      let start := i * chunkSize
      if start < data.length then
        padTo chunkSize ((data.drop start).take chunkSize)
      else
        List.replicate chunkSize 0)

/-- One pass of the in-place XOR loop
`for (j, &byte) in b.iter().enumerate() { a[j] ^= byte; }`, assuming it does
not panic: positions `j < b.length` become `a[j] ^^^ b[j]`, the rest of `a`
is unchanged.  Exact for `b.length ≤ a.length`; call sites guard the panic
case (`b` longer than `a`) explicitly. -/
def xorAt (a b : Chunk) : Chunk :=
  List.zipWith (fun x y => x ^^^ y) a b ++ a.drop b.length

/-- The same XOR loop iterated over a list of chunks, with the panic made
explicit: `none` when some chunk is longer than the accumulator (Rust
index-out-of-bounds panic at `a[j]`). -/
def xorLoop (a : Chunk) : List Chunk → Option Chunk
  | [] => some a
  | b :: rest => if b.length ≤ a.length then xorLoop (xorAt a b) rest else none

/-- The XOR-membership table of `create_parity_chunks`: data chunk `i`
contributes to parity chunk `p` iff `p = 0` or `(i + p) % (p + 1) = 0`. -/
def shouldInclude (p i : Nat) : Bool :=
  match p with
  | 0 => true
  | _ => decide ((i + p) % (p + 1) = 0)

/-- The parity chunk for parity index `p`: XOR of the data chunks selected by
`shouldInclude p`, starting from a zero chunk of the common chunk size
(`none` models the XOR loop's panic, never reached from `encode`). -/
def parityChunkFor (dataChunks : List Chunk) (chunkSize p : Nat) : Option Chunk :=
  xorLoop (List.replicate chunkSize 0)
    (dataChunks.enum.filterMap (fun q =>
      if shouldInclude p q.1 then some q.2 else none))

/-- The `for p in 0..parity_chunks` loop of `create_parity_chunks`,
as a recursion over the list of parity indices. -/
def buildParity (dataChunks : List Chunk) (chunkSize : Nat) :
    List Nat → Option (List Chunk)
  | [] => some []
  | p :: ps =>
    match parityChunkFor dataChunks chunkSize p, buildParity dataChunks chunkSize ps with
    | some c, some cs => some (c :: cs)
    | _, _ => none

/-- `create_parity_chunks`: one parity chunk per parity index. -/
def create_parity_chunks (s : SimpleParityScheme) (dataChunks : List Chunk) :
    Option (List Chunk) :=
  if dataChunks.isEmpty then
    some []
  else
    buildParity dataChunks (dataChunks.headD []).length
      (List.range s.parity_chunks)

/-- `encode`: data chunks from `split_data` followed by the parity chunks
(`none` models a panic, which in fact never happens for `data_chunks ≥ 1`). -/
def encode (s : SimpleParityScheme) (data : List Nat) : Option (List Chunk) :=
  let dataChunks := s.split_data data
  match s.create_parity_chunks dataChunks with
  | some parityChunks => some (dataChunks ++ parityChunks)
  | none => none

/-- The ascending list of missing indices among the first `k` entries
(the `missing_indices` vector of `recover_chunks`). -/
def missingOf (dataOpts : List (Option Chunk)) : List Nat :=
  dataOpts.enum.filterMap (fun p => if p.2.isNone then some p.1 else none)

/-- The present data chunks other than the missing index, in order
(the chunks XOR-ed into the recovered chunk by `recover_chunks`). -/
def presentOthers (dataOpts : List (Option Chunk)) (missingIdx : Nat) :
    List Chunk :=
  dataOpts.enum.filterMap (fun p =>
    if p.1 ≠ missingIdx then p.2 else none)

/-- `recover_chunks`: validates the chunk count and availability, collects
the first `k` chunks (placeholder `[]` for a missing one), and reconstructs
a single missing data chunk from the first available parity chunk. -/
def recover_chunks (s : SimpleParityScheme) (chunks : List (Option Chunk)) :
    DResult (List Chunk) :=
  if chunks.length ≠ s.total_chunks then
    .err .wrongChunkCount
  else if ¬ s.can_recover ((chunks.filter (fun c => c.isSome)).length) then
    .err .insufficientChunks
  else
    match missingOf (chunks.take s.data_chunks) with
    | [] => .ok ((chunks.take s.data_chunks).map (fun c => c.getD []))
    | [missingIdx] =>
      match (chunks.drop s.data_chunks).filterMap id with
      | [] => .err .noParityChunkAvailable
      | parityChunk :: _ =>
        match xorLoop parityChunk
            (presentOthers (chunks.take s.data_chunks) missingIdx) with
        | some recoveredChunk =>
          .ok (((chunks.take s.data_chunks).map (fun c => c.getD [])).set
            missingIdx recoveredChunk)
        | none => .panicked
    | _ => .err .unsupportedRecovery

/-- Remove trailing zero bytes
(the `while result.ends_with(&[0])` loop of `decode`). -/
def stripTrailingZeros (l : Chunk) : Chunk :=
  (l.reverse.dropWhile (fun b => b == 0)).reverse

/-- `decode`: recover the data chunks, concatenate them, strip the zero
padding. -/
def decode (s : SimpleParityScheme) (chunks : List (Option Chunk)) :
    DResult (List Nat) :=
  match s.recover_chunks chunks with
  | .ok recoveredChunks => .ok (stripTrailingZeros recoveredChunks.flatten)
  | .err e => .err e
  | .panicked => .panicked

/-- The chunk size `encode` uses: `0` for empty input, `ceil (len / k)`
otherwise. -/
def chunkSizeOf (s : SimpleParityScheme) (data : List Nat) : Nat :=
  if data.length = 0 then 0 else (data.length + s.data_chunks - 1) / s.data_chunks

end SimpleParityScheme

/-! ## Storage nodes (`src/storage/node.rs`, `src/storage/mod.rs`) -/

/-- `NodeState` from `node.rs`. -/
inductive NodeState where
  | Healthy
  | Degraded
  | Failed
deriving DecidableEq, Repr

/-- `StorageStats` from `storage/mod.rs`. -/
structure StorageStats where
  total_chunks : Nat
  total_bytes : Nat
  reads : Nat
  writes : Nat
deriving DecidableEq, Repr

namespace StorageStats

/-- `StorageStats::new` (all counters zero). -/
def new : StorageStats := ⟨0, 0, 0, 0⟩

/-- `record_write`. -/
def record_write (st : StorageStats) (bytes : Nat) : StorageStats :=
  { st with
    writes := st.writes + 1
    total_bytes := st.total_bytes + bytes
    total_chunks := st.total_chunks + 1 }

/-- `record_delete` (Rust `saturating_sub` is `Nat` subtraction). -/
def record_delete (st : StorageStats) (bytes : Nat) : StorageStats :=
  { st with
    total_bytes := st.total_bytes - bytes
    total_chunks := st.total_chunks - 1 }

end StorageStats

/-- Lookup in the per-node chunk map (`HashMap<String, Vec<u8>>` modelled as
an association list). -/
def dlookup : List (String × Chunk) → String → Option Chunk
  | [], _ => none
  | (k, v) :: rest, key => if k = key then some v else dlookup rest key

/-- `HashMap::insert` (upsert). -/
def dinsert : List (String × Chunk) → String → Chunk → List (String × Chunk)
  | [], key, val => [(key, val)]
  | (k, v) :: rest, key, val =>
    if k = key then (key, val) :: rest else (k, v) :: dinsert rest key val

/-- `HashMap::remove`. -/
def dremove : List (String × Chunk) → String → List (String × Chunk)
  | [], _ => []
  | (k, v) :: rest, key => if k = key then rest else (k, v) :: dremove rest key

/-- The fixed latency table (10/100/0 ms for Healthy/Degraded/Failed). -/
def latencyFor : NodeState → Nat
  | .Healthy => 10
  | .Degraded => 100
  | .Failed => 0

/-- `Node` from `node.rs`. -/
structure Node where
  id : Nat
  state : NodeState
  data : List (String × Chunk)
  stats : StorageStats
  latency_ms : Nat
deriving DecidableEq, Repr

namespace Node

/-- `Node::new`: a fresh healthy node. -/
def new (id : Nat) : Node :=
  ⟨id, .Healthy, [], .new, 10⟩

/-- `Node::with_state`. -/
def with_state (id : Nat) (state : NodeState) : Node :=
  { new id with state := state, latency_ms := latencyFor state }

/-- `Node::set_state`: sets the state and the matching latency. -/
def set_state (n : Node) (state : NodeState) : Node :=
  { n with state := state, latency_ms := latencyFor state }

/-- `Node::is_available`. -/
def is_available (n : Node) : Bool :=
  decide (n.state ≠ .Failed)

/-- `Node::fail`. -/
def fail (n : Node) : Node := n.set_state .Failed

/-- `Node::recover`. -/
def recover (n : Node) : Node := n.set_state .Healthy

/-- `Node::degrade` (only from Healthy). -/
def degrade (n : Node) : Node :=
  if n.state = .Healthy then n.set_state .Degraded else n

/-- `Node::chunk_count`. -/
def chunk_count (n : Node) : Nat := n.data.length

/-- `Node::bytes_stored`. -/
def bytes_stored (n : Node) : Nat := (n.data.map (fun p => p.2.length)).sum

/-- `Storage::store` for `Node`: the updated node together with the
returned `Result` (`self` is untouched on error). -/
def store (n : Node) (key : String) (d : Chunk) : Node × Except EErr Unit :=
  if n.state = .Failed then (n, .error .nodeUnavailable)
  else
    ({ n with
        data := dinsert n.data key d
        stats := n.stats.record_write d.length }, .ok ())

/-- `Storage::retrieve` for `Node` (absence is `Ok none`, not an error). -/
def retrieve (n : Node) (key : String) : Except EErr (Option Chunk) :=
  if n.state = .Failed then .error .nodeUnavailable
  else .ok (dlookup n.data key)

/-- `Storage::delete` for `Node`. -/
def delete (n : Node) (key : String) : Node × Except EErr Unit :=
  if n.state = .Failed then (n, .error .nodeUnavailable)
  else
    match dlookup n.data key with
    | some d =>
      ({ n with
          data := dremove n.data key
          stats := n.stats.record_delete d.length }, .ok ())
    | none => (n, .ok ())

/-- `Storage::list_keys` for `Node`: empty when Failed. -/
def list_keys (n : Node) : List String :=
  if n.state = .Failed then [] else n.data.map (fun p => p.1)

end Node

/-! ## Cluster (`src/storage/cluster.rs`)

The Rust cluster keeps its nodes in a `HashMap<NodeId, Node>` and enumerates
ids from it in `store_data` and `retrieve_data`.  That enumeration order is
unspecified (the spec flags it as an open question and prescribes fixing a
deterministic order); the embedding keeps the nodes as an association list
in insertion order, which is stable across the in-place state mutations that
occur between a store and a retrieve. -/

/-- Lookup in the node registry. -/
def alookup : List (Nat × Node) → Nat → Option Node
  | [], _ => none
  | (k, v) :: rest, id => if k = id then some v else alookup rest id

/-- In-place update of an existing node (id already present). -/
def aupdate : List (Nat × Node) → Nat → Node → List (Nat × Node)
  | [], _, _ => []
  | (k, v) :: rest, id, n =>
    if k = id then (k, n) :: rest else (k, v) :: aupdate rest id n

/-- `Cluster` from `cluster.rs`. -/
structure Cluster where
  nodes : List (Nat × Node)
  next_id : Nat
  scheme : Option SimpleParityScheme
deriving DecidableEq, Repr

/-- The per-node chunk key `"{key}_{i}"`. -/
def chunkKey (key : String) (i : Nat) : String :=
  key ++ "_" ++ toString i

namespace Cluster

/-- `Cluster::new`. -/
def new : Cluster := ⟨[], 0, none⟩

/-- `Cluster::add_node`: insert a fresh healthy node under the next id. -/
def add_node (c : Cluster) : Cluster × Nat :=
  ({ c with
      nodes := c.nodes ++ [(c.next_id, Node.new c.next_id)]
      next_id := c.next_id + 1 }, c.next_id)

/-- `Cluster::with_nodes`: `n` invocations of `add_node` on an empty
cluster. -/
def with_nodes : Nat → Cluster
  | 0 => new
  | n + 1 => (with_nodes n).add_node.1

/-- `Cluster::set_scheme`. -/
def set_scheme (c : Cluster) (s : SimpleParityScheme) : Cluster :=
  { c with scheme := some s }

/-- `Cluster::node_ids` (deterministic enumeration, see above). -/
def node_ids (c : Cluster) : List Nat := c.nodes.map (fun p => p.1)

/-- `Cluster::node_count`. -/
def node_count (c : Cluster) : Nat := c.nodes.length

/-- `Cluster::get_node`. -/
def get_node (c : Cluster) (id : Nat) : Option Node :=
  alookup c.nodes id

/-- `Cluster::fail_node`. -/
def fail_node (c : Cluster) (id : Nat) : Except EErr Cluster :=
  match alookup c.nodes id with
  | some n => .ok { c with nodes := aupdate c.nodes id n.fail }
  | none => .error .nodeNotFound

/-- `Cluster::recover_node`. -/
def recover_node (c : Cluster) (id : Nat) : Except EErr Cluster :=
  match alookup c.nodes id with
  | some n => .ok { c with nodes := aupdate c.nodes id n.recover }
  | none => .error .nodeNotFound

/-- `Cluster::degrade_node`. -/
def degrade_node (c : Cluster) (id : Nat) : Except EErr Cluster :=
  match alookup c.nodes id with
  | some n => .ok { c with nodes := aupdate c.nodes id n.degrade }
  | none => .error .nodeNotFound

end Cluster

/-- One iteration of the chunk-distribution loop of `store_data`:
chunk `p.2` with index `p.1` goes to the `p.1`-th enumerated node, and is
written only if that node is available (an unavailable or missing target is
skipped silently).  The `Err` branch mirrors the `?` on `node.store`. -/
def storeStep (ids : List Nat) (key : String) (nodes : List (Nat × Node))
    (p : Nat × Chunk) : Except EErr (List (Nat × Node)) :=
  if p.1 < ids.length then
    match alookup nodes (ids.getD p.1 0) with
    | some node =>
      if node.is_available then
        match node.store (chunkKey key p.1) p.2 with
        | (n', .ok _) => .ok (aupdate nodes (ids.getD p.1 0) n')
        | (_, .error e) => .error e
      else .ok nodes
    | none => .ok nodes
  else .ok nodes

/-- The pure effect of one `storeStep` iteration.  `storeStep` equals
`.ok` of this whenever its `Err` branch is unreachable — which is always,
since the branch requires an available node whose `store` nevertheless
fails, and `store` only fails on Failed (unavailable) nodes; see
`storeStep_eq_ok`. -/
def storeStepF (ids : List Nat) (key : String) (nodes : List (Nat × Node))
    (p : Nat × Chunk) : List (Nat × Node) :=
  if p.1 < ids.length then
    match alookup nodes (ids.getD p.1 0) with
    | some node =>
      if node.is_available then
        aupdate nodes (ids.getD p.1 0) (node.store (chunkKey key p.1) p.2).1
      else nodes
    | none => nodes
  else nodes

namespace Cluster

/-- `Cluster::store_data`: encode, check the node count, distribute the
chunks. -/
def store_data (c : Cluster) (key : String) (data : List Nat) :
    DResult Cluster :=
  match c.scheme with
  | none => .err .schemeNotConfigured
  | some s =>
    match s.encode data with
    | none => .panicked
    | some chunks =>
      if c.node_count < chunks.length then .err .insufficientNodes
      else
        match chunks.enum.foldlM (storeStep c.node_ids key) c.nodes with
        | .ok ns => .ok { c with nodes := ns }
        | .error e => .err e

/-- `Cluster::retrieve_data`: read chunk `i` of the key from the `i`-th
enumerated node (missing / unavailable / absent becomes `none`), then
decode. -/
def retrieve_data (c : Cluster) (key : String) : DResult (List Nat) :=
  match c.scheme with
  | none => .err .schemeNotConfigured
  | some s =>
    s.decode ((List.range s.total_chunks).map (fun i =>
      if i < c.node_ids.length then
        match alookup c.nodes (c.node_ids.getD i 0) with
        | some node =>
          match node.retrieve (chunkKey key i) with
          | .ok r => r
          | .error _ => none
        | none => none
      else none))

end Cluster

/-! ## Recovery coordinator (`src/simulation/recovery.rs`)

Only the cluster mutation and the success flag of `execute_recovery` are
modelled; the wall-clock duration bookkeeping (`Instant::now`) and the
`tokio` pacing sleeps are real-time side effects with no influence on
either. -/

/-- `RecoveryType` from `recovery.rs`. -/
inductive RecoveryType where
  | NodeRestart : Nat → RecoveryType
  | DataRebuild : Nat → List String → RecoveryType
  | HotSpareActivation : Nat → Nat → RecoveryType
  | NetworkRepair : List Nat → RecoveryType
deriving DecidableEq, Repr

namespace RecoveryCoordinator

/-- `restart_node`: succeeds only on a currently Failed node, which it
recovers to Healthy. -/
def restart_node (c : Cluster) (node_id : Nat) : DResult (Cluster × Bool) :=
  match c.get_node node_id with
  | some node =>
    if node.state = .Failed then
      match c.recover_node node_id with
      | .ok c' => .ok (c', true)
      | .error e => .err e
    else .ok (c, false)
  | none => .ok (c, false)

/-- One key of the `rebuild_data` loop: retrieve then re-store; any failure
counts the key as not rebuilt and continues. -/
def rebuild_key (c : Cluster) (key : String) : DResult (Cluster × Bool) :=
  match c.retrieve_data key with
  | .ok data =>
    match c.store_data key data with
    | .ok c' => .ok (c', true)
    | .err _ => .ok (c, false)
    | .panicked => .panicked
  | .err _ => .ok (c, false)
  | .panicked => .panicked

/-- The key loop of `rebuild_data`, counting successful rebuilds. -/
def rebuild_loop (c : Cluster) (count : Nat) :
    List String → DResult (Cluster × Nat)
  | [] => .ok (c, count)
  | key :: rest =>
    match rebuild_key c key with
    | .ok (c', true) => rebuild_loop c' (count + 1) rest
    | .ok (c', false) => rebuild_loop c' count rest
    | .err e => .err e
    | .panicked => .panicked

/-- `rebuild_data`: recover the node if needed, then rebuild every key;
fully successful only if every key round-trips. -/
def rebuild_data (c : Cluster) (node_id : Nat) (keys : List String) :
    DResult (Cluster × Bool) :=
  let recovered : Except EErr Cluster :=
    match c.get_node node_id with
    | some node =>
      if ¬ node.is_available then c.recover_node node_id else .ok c
    | none => .ok c
  match recovered with
  | .error e => .err e
  | .ok c1 =>
    match rebuild_loop c1 0 keys with
    | .ok (c2, n) => .ok (c2, decide (n = keys.length))
    | .err e => .err e
    | .panicked => .panicked

/-- `activate_hot_spare`: succeeds iff both nodes exist and the spare is
Healthy; no data is copied. -/
def activate_hot_spare (c : Cluster) (spare_id failed_id : Nat) :
    DResult (Cluster × Bool) :=
  match c.get_node spare_id, c.get_node failed_id with
  | some spare, some _ => .ok (c, decide (spare.state = .Healthy))
  | _, _ => .ok (c, false)

/-- The node loop of `repair_network`, counting successful recoveries. -/
def repair_loop (c : Cluster) (count : Nat) : List Nat → Cluster × Nat
  | [] => (c, count)
  | id :: rest =>
    match c.recover_node id with
    | .ok c' => repair_loop c' (count + 1) rest
    | .error _ => repair_loop c count rest

/-- `repair_network`: recover every listed node; succeeds iff all do. -/
def repair_network (c : Cluster) (ids : List Nat) : DResult (Cluster × Bool) :=
  let p := repair_loop c 0 ids
  .ok (p.1, decide (p.2 = ids.length))

/-- `execute_recovery`, per `RecoveryType`: the resulting cluster and the
success flag recorded into the statistics. -/
def execute_recovery (c : Cluster) (rt : RecoveryType) :
    DResult (Cluster × Bool) :=
  match rt with
  | .NodeRestart id => restart_node c id
  | .DataRebuild id keys => rebuild_data c id keys
  | .HotSpareActivation spare failed => activate_hot_spare c spare failed
  | .NetworkRepair ids => repair_network c ids

end RecoveryCoordinator

/-! ## Generic list helpers -/

theorem enumFrom_snd_mem {α : Type} : ∀ (l : List α) (n : Nat) (p : Nat × α),
    p ∈ l.enumFrom n → p.2 ∈ l := by
  intro l
  induction l with
  | nil => intro n p h; cases h
  | cons a rest ih =>
    intro n p h
    have h' : p ∈ (n, a) :: rest.enumFrom (n + 1) := h
    rcases List.mem_cons.mp h' with h' | h'
    · subst h'; exact List.mem_cons_self _ _
    · exact List.mem_cons_of_mem _ (ih (n + 1) p h')

theorem enum_snd_mem {α : Type} (l : List α) (p : Nat × α)
    (h : p ∈ l.enum) : p.2 ∈ l :=
  enumFrom_snd_mem l 0 p h

/-! ## Association-list lemmas for the node registry -/

theorem alookup_aupdate_self : ∀ (l : List (Nat × Node)) (id : Nat)
    (n' n : Node), alookup l id = some n →
    alookup (aupdate l id n') id = some n' := by
  intro l
  induction l with
  | nil => intro id n' n h; cases h
  | cons p rest ih =>
    intro id n' n h
    by_cases hk : p.1 = id
    · show alookup (if p.1 = id then (p.1, n') :: rest else _) id = some n'
      rw [if_pos hk]
      show (if p.1 = id then some n' else alookup rest id) = some n'
      rw [if_pos hk]
    · show alookup (if p.1 = id then _ else (p.1, p.2) :: aupdate rest id n') id
        = some n'
      rw [if_neg hk]
      show (if p.1 = id then some p.2 else alookup (aupdate rest id n') id)
        = some n'
      rw [if_neg hk]
      apply ih id n'
      have h' : (if p.1 = id then some p.2 else alookup rest id) = some n := h
      rw [if_neg hk] at h'
      exact h'

theorem alookup_aupdate_ne : ∀ (l : List (Nat × Node)) (id : Nat) (n' : Node)
    (j : Nat), j ≠ id → alookup (aupdate l id n') j = alookup l j := by
  intro l
  induction l with
  | nil => intro id n' j _; rfl
  | cons p rest ih =>
    intro id n' j hj
    by_cases hk : p.1 = id
    · show alookup (if p.1 = id then (p.1, n') :: rest else _) j = _
      rw [if_pos hk]
      show (if p.1 = j then some n' else alookup rest j)
        = (if p.1 = j then some p.2 else alookup rest j)
      rw [if_neg (by omega), if_neg (by omega)]
    · show alookup (if p.1 = id then _ else (p.1, p.2) :: aupdate rest id n') j = _
      rw [if_neg hk]
      show (if p.1 = j then some p.2 else alookup (aupdate rest id n') j)
        = (if p.1 = j then some p.2 else alookup rest j)
      by_cases hpj : p.1 = j
      · rw [if_pos hpj, if_pos hpj]
      · rw [if_neg hpj, if_neg hpj, ih id n' j hj]

theorem aupdate_keys : ∀ (l : List (Nat × Node)) (id : Nat) (n : Node),
    (aupdate l id n).map Prod.fst = l.map Prod.fst := by
  intro l
  induction l with
  | nil => intro id n; rfl
  | cons p rest ih =>
    intro id n
    by_cases hk : p.1 = id
    · show ((if p.1 = id then (p.1, n) :: rest else _).map Prod.fst) = _
      rw [if_pos hk]
      rfl
    · show ((if p.1 = id then _ else (p.1, p.2) :: aupdate rest id n).map Prod.fst) = _
      rw [if_neg hk]
      show p.1 :: (aupdate rest id n).map Prod.fst = p.1 :: rest.map Prod.fst
      rw [ih id n]

theorem alookup_mem_keys : ∀ (l : List (Nat × Node)) (id : Nat),
    id ∈ l.map Prod.fst → ∃ n, alookup l id = some n := by
  intro l
  induction l with
  | nil => intro id h; cases h
  | cons p rest ih =>
    intro id h
    by_cases hk : p.1 = id
    · exact ⟨p.2, by show (if p.1 = id then some p.2 else _) = _; rw [if_pos hk]⟩
    · have h' : id ∈ rest.map Prod.fst := by
        rcases List.mem_cons.mp h with h' | h'
        · exact absurd h'.symm hk
        · exact h'
      obtain ⟨n, hn⟩ := ih id h'
      refine ⟨n, ?_⟩
      show (if p.1 = id then some p.2 else alookup rest id) = some n
      rw [if_neg hk]
      exact hn

/-! ## Shape of `encode` -/

namespace SimpleParityScheme

theorem padTo_length (n : Nat) (l : Chunk) (h : l.length ≤ n) :
    (padTo n l).length = n := by
  simp [padTo]
  omega

theorem split_data_length (s : SimpleParityScheme) (data : List Nat) :
    (s.split_data data).length = s.data_chunks := by
  unfold split_data
  split <;> simp

theorem split_data_chunk_length (s : SimpleParityScheme) (data : List Nat) :
    ∀ c ∈ s.split_data data, c.length = s.chunkSizeOf data := by
  intro c hc
  unfold split_data at hc
  unfold chunkSizeOf
  split at hc
  · rename_i h0
    rw [List.eq_of_mem_replicate hc]
    simp [h0]
  · rename_i h0
    simp only [List.mem_map, List.mem_range] at hc
    obtain ⟨i, _, rfl⟩ := hc
    simp only [h0, if_neg]
    split
    · exact padTo_length _ _ (by simp [List.length_take])
    · simp

theorem xorAt_length (a b : Chunk) (h : b.length ≤ a.length) :
    (xorAt a b).length = a.length := by
  simp [xorAt]
  omega

theorem xorLoop_eq_some (l : List Chunk) (a : Chunk)
    (h : ∀ b ∈ l, b.length ≤ a.length) :
    ∃ r, xorLoop a l = some r ∧ r.length = a.length := by
  induction l generalizing a with
  | nil => exact ⟨a, rfl, rfl⟩
  | cons b rest ih =>
    have hb : b.length ≤ a.length := h b (List.mem_cons_self _ _)
    have hlen := xorAt_length a b hb
    obtain ⟨r, hr, hrl⟩ := ih (xorAt a b) (fun c hc => by
      rw [hlen]; exact h c (List.mem_cons_of_mem _ hc))
    exact ⟨r, by simp [xorLoop, hb, hr], by omega⟩

theorem parityChunkFor_eq_some (dataChunks : List Chunk) (L p : Nat)
    (h : ∀ c ∈ dataChunks, c.length = L) :
    ∃ r, parityChunkFor dataChunks L p = some r ∧ r.length = L := by
  obtain ⟨r, hr, hrl⟩ := xorLoop_eq_some
    (dataChunks.enum.filterMap (fun q =>
      if shouldInclude p q.1 then some q.2 else none))
    (List.replicate L 0)
    (by
      intro b hb
      simp only [List.mem_filterMap] at hb
      obtain ⟨q, hq, hqb⟩ := hb
      split at hqb
      · cases hqb
        simp [h q.2 (enum_snd_mem _ _ hq)]
      · cases hqb)
  exact ⟨r, hr, by simpa using hrl⟩

theorem buildParity_eq_some (dataChunks : List Chunk) (L : Nat)
    (h : ∀ c ∈ dataChunks, c.length = L) (ps : List Nat) :
    ∃ rs, buildParity dataChunks L ps = some rs ∧ rs.length = ps.length ∧
      ∀ r ∈ rs, r.length = L := by
  induction ps with
  | nil => exact ⟨[], rfl, rfl, by simp⟩
  | cons p rest ih =>
    obtain ⟨r, hr, hrl⟩ := parityChunkFor_eq_some dataChunks L p h
    obtain ⟨rs, hrs, hrsl, hrsm⟩ := ih
    refine ⟨r :: rs, ?_, by simp [hrsl], ?_⟩
    · simp [buildParity, hr, hrs]
    · intro x hx
      rcases List.mem_cons.mp hx with hx | hx
      · exact hx ▸ hrl
      · exact hrsm x hx

theorem encode_eq_some (s : SimpleParityScheme) (data : List Nat)
    (hk : 1 ≤ s.data_chunks) :
    ∃ cs, s.encode data = some cs ∧ cs.length = s.total_chunks ∧
      ∀ c ∈ cs, c.length = s.chunkSizeOf data := by
  have hsplitLen := split_data_length s data
  have hchunkLen := split_data_chunk_length s data
  have hne : ¬ (s.split_data data).isEmpty := by
    rw [List.isEmpty_iff_length_eq_zero, hsplitLen]
    omega
  have hhead : (s.split_data data).headD [] ∈ s.split_data data := by
    cases hs : s.split_data data with
    | nil => rw [hs] at hsplitLen; simp at hsplitLen; omega
    | cons a rest => simp
  have hheadLen : ((s.split_data data).headD []).length = s.chunkSizeOf data :=
    hchunkLen _ hhead
  obtain ⟨rs, hrs, hrsl, hrsm⟩ :=
    buildParity_eq_some (s.split_data data) (s.chunkSizeOf data) hchunkLen
      (List.range s.parity_chunks)
  refine ⟨s.split_data data ++ rs, ?_, ?_, ?_⟩
  · unfold encode create_parity_chunks
    simp only [if_neg hne, hheadLen, hrs]
  · simp [hsplitLen, hrsl, total_chunks]
  · intro c hc
    rcases List.mem_append.mp hc with hc | hc
    · exact hchunkLen c hc
    · exact hrsm c hc

end SimpleParityScheme

/-! ## Byte-level XOR reasoning -/

namespace SimpleParityScheme

theorem xor_left_comm (a b c : Nat) : a ^^^ (b ^^^ c) = b ^^^ (a ^^^ c) := by
  rw [← Nat.xor_assoc, Nat.xor_comm a b, Nat.xor_assoc]

theorem getD_xorAt : ∀ (a b : Chunk), b.length ≤ a.length → ∀ j : Nat,
    (xorAt a b).getD j 0 = a.getD j 0 ^^^ b.getD j 0
  | a, [], _, j => by simp [xorAt]
  | [], b :: bs, h, j => by simp at h
  | x :: a', y :: b', h, 0 => by simp [xorAt]
  | x :: a', y :: b', h, j + 1 => by
    have ih := getD_xorAt a' b' (by simpa using h) j
    simpa [xorAt] using ih

theorem foldl_xorAt_length (l : List Chunk) (a : Chunk)
    (h : ∀ b ∈ l, b.length ≤ a.length) :
    (l.foldl xorAt a).length = a.length := by
  induction l generalizing a with
  | nil => rfl
  | cons b rest ih =>
    have hb := h b (List.mem_cons_self _ _)
    have hlen := xorAt_length a b hb
    rw [List.foldl_cons, ih (xorAt a b) (fun c hc => by
      rw [hlen]; exact h c (List.mem_cons_of_mem _ hc)), hlen]

theorem xorLoop_eq_foldl (l : List Chunk) (a : Chunk)
    (h : ∀ b ∈ l, b.length ≤ a.length) :
    xorLoop a l = some (l.foldl xorAt a) := by
  induction l generalizing a with
  | nil => rfl
  | cons b rest ih =>
    have hb := h b (List.mem_cons_self _ _)
    have hlen := xorAt_length a b hb
    rw [xorLoop, if_pos hb, List.foldl_cons]
    exact ih (xorAt a b) (fun c hc => by
      rw [hlen]; exact h c (List.mem_cons_of_mem _ hc))

theorem getD_foldl_xorAt (l : List Chunk) (a : Chunk)
    (h : ∀ b ∈ l, b.length ≤ a.length) (j : Nat) :
    (l.foldl xorAt a).getD j 0 =
      l.foldl (fun x c => x ^^^ c.getD j 0) (a.getD j 0) := by
  induction l generalizing a with
  | nil => rfl
  | cons b rest ih =>
    have hb := h b (List.mem_cons_self _ _)
    have hlen := xorAt_length a b hb
    rw [List.foldl_cons, List.foldl_cons,
      ih (xorAt a b) (fun c hc => by
        rw [hlen]; exact h c (List.mem_cons_of_mem _ hc)),
      getD_xorAt a b hb j]

theorem foldl_xor_shift (l : List Nat) (y : Nat) :
    l.foldl (fun x z => x ^^^ z) y =
      y ^^^ l.foldl (fun x z => x ^^^ z) 0 := by
  induction l generalizing y with
  | nil => simp
  | cons z rest ih =>
    rw [List.foldl_cons, List.foldl_cons, ih (y ^^^ z), ih (0 ^^^ z),
      Nat.zero_xor, Nat.xor_assoc]

theorem xorSum_cons (x : Nat) (l : List Nat) :
    (x :: l).foldl (fun a z => a ^^^ z) 0 =
      x ^^^ l.foldl (fun a z => a ^^^ z) 0 := by
  rw [List.foldl_cons, Nat.zero_xor, foldl_xor_shift]

theorem xorSum_append (A B : List Nat) :
    (A ++ B).foldl (fun a z => a ^^^ z) 0 =
      A.foldl (fun a z => a ^^^ z) 0 ^^^ B.foldl (fun a z => a ^^^ z) 0 := by
  rw [List.foldl_append, foldl_xor_shift]

/-- XOR-ing the XOR of all of `xs` with the XOR of all of `xs` except index
`i` isolates element `i`. -/
theorem xorSum_cancel (xs : List Nat) (i : Nat) (h : i < xs.length) :
    xs.foldl (fun a z => a ^^^ z) 0 ^^^
      (xs.eraseIdx i).foldl (fun a z => a ^^^ z) 0 = xs.getD i 0 := by
  have hdecomp : xs = xs.take i ++ xs.get ⟨i, h⟩ :: xs.drop (i + 1) := by
    conv_lhs => rw [← List.take_append_drop i xs]
    rw [List.drop_eq_getElem_cons h]
    rfl
  have herase : xs.eraseIdx i = xs.take i ++ xs.drop (i + 1) :=
    List.eraseIdx_eq_take_drop_succ xs i
  have hget : xs.getD i 0 = xs.get ⟨i, h⟩ := by
    rw [List.getD_eq_getElem?_getD, List.getElem?_eq_getElem h]
    rfl
  rw [hget, herase]
  nth_rewrite 1 [hdecomp]
  rw [xorSum_append, xorSum_append, xorSum_cons]
  generalize (xs.take i).foldl (fun a z => a ^^^ z) 0 = A
  generalize (xs.drop (i + 1)).foldl (fun a z => a ^^^ z) 0 = B
  generalize xs.get ⟨i, h⟩ = x
  rw [Nat.xor_assoc A (x ^^^ B) (A ^^^ B), xor_left_comm (x ^^^ B) A B,
    Nat.xor_assoc x B B, Nat.xor_self, Nat.xor_zero,
    ← Nat.xor_assoc A A x, Nat.xor_self, Nat.zero_xor]

end SimpleParityScheme

/-! ## Shapes of the `recover_chunks` intermediate values -/

namespace SimpleParityScheme

theorem eq_of_getD (a b : Chunk) (hlen : a.length = b.length)
    (h : ∀ j, a.getD j 0 = b.getD j 0) : a = b := by
  apply List.ext_getElem?
  intro n
  by_cases hn : n < a.length
  · have hv := h n
    rw [List.getD_eq_getElem?_getD, List.getD_eq_getElem?_getD,
      List.getElem?_eq_getElem hn, List.getElem?_eq_getElem (hlen ▸ hn)] at hv
    simp only [Option.getD_some] at hv
    rw [List.getElem?_eq_getElem hn, List.getElem?_eq_getElem (hlen ▸ hn), hv]
  · rw [List.getElem?_eq_none (by omega), List.getElem?_eq_none (by omega)]

theorem missingOf_enumFrom_map_some (d : List Chunk) : ∀ n : Nat,
    ((d.map some).enumFrom n).filterMap
      (fun p => if p.2.isNone then some p.1 else none) = [] := by
  induction d with
  | nil => intro n; rfl
  | cons c rest ih =>
    intro n
    show ((n, some c) :: (rest.map some).enumFrom (n + 1)).filterMap _ = []
    rw [List.filterMap_cons]
    simp only [Option.isNone_some, Bool.false_eq_true, if_false]
    exact ih (n + 1)

theorem missingOf_map_some (d : List Chunk) : missingOf (d.map some) = [] :=
  missingOf_enumFrom_map_some d 0

theorem missingOf_enumFrom_set (d : List Chunk) : ∀ (n i : Nat),
    i < d.length →
    (((d.map some).set i none).enumFrom n).filterMap
      (fun p => if p.2.isNone then some p.1 else none) = [n + i] := by
  induction d with
  | nil => intro n i hi; simp at hi
  | cons c rest ih =>
    intro n i hi
    cases i with
    | zero =>
      show ((n, none) :: (rest.map some).enumFrom (n + 1)).filterMap _ = [n]
      rw [List.filterMap_cons]
      simp only [Option.isNone_none, if_true]
      rw [missingOf_enumFrom_map_some rest (n + 1)]
    | succ i' =>
      show ((n, some c) :: ((rest.map some).set i' none).enumFrom (n + 1)).filterMap _
        = [n + (i' + 1)]
      rw [List.filterMap_cons]
      simp only [Option.isNone_some, Bool.false_eq_true, if_false]
      rw [ih (n + 1) i' (by simpa using hi)]
      congr 1
      omega

theorem missingOf_set (d : List Chunk) (i : Nat) (hi : i < d.length) :
    missingOf ((d.map some).set i none) = [i] := by
  have := missingOf_enumFrom_set d 0 i hi
  simpa [missingOf] using this

theorem presentOthers_enumFrom_keepAll (d : List Chunk) : ∀ (n m : Nat),
    m < n →
    ((d.map some).enumFrom n).filterMap
      (fun p => if p.1 ≠ m then p.2 else none) = d := by
  induction d with
  | nil => intro n m _; rfl
  | cons c rest ih =>
    intro n m hm
    show ((n, some c) :: (rest.map some).enumFrom (n + 1)).filterMap _ = c :: rest
    rw [List.filterMap_cons]
    rw [if_pos (by omega)]
    rw [ih (n + 1) m (by omega)]

theorem presentOthers_enumFrom_set (d : List Chunk) : ∀ (n i : Nat),
    i < d.length →
    (((d.map some).set i none).enumFrom n).filterMap
      (fun p => if p.1 ≠ n + i then p.2 else none) = d.eraseIdx i := by
  induction d with
  | nil => intro n i hi; simp at hi
  | cons c rest ih =>
    intro n i hi
    cases i with
    | zero =>
      show ((n, none) :: (rest.map some).enumFrom (n + 1)).filterMap _
        = (c :: rest).eraseIdx 0
      rw [List.filterMap_cons]
      rw [if_neg (by omega)]
      exact presentOthers_enumFrom_keepAll rest (n + 1) (n + 0) (by omega)
    | succ i' =>
      have harith : n + (i' + 1) = n + 1 + i' := by omega
      simp only [harith]
      show ((n, some c) :: ((rest.map some).set i' none).enumFrom (n + 1)).filterMap _
        = (c :: rest).eraseIdx (i' + 1)
      rw [List.filterMap_cons]
      rw [if_pos (by omega)]
      show c :: _ = c :: rest.eraseIdx i'
      congr 1
      exact ih (n + 1) i' (by simpa using hi)

theorem presentOthers_set (d : List Chunk) (i : Nat) (hi : i < d.length) :
    presentOthers ((d.map some).set i none) i = d.eraseIdx i := by
  have := presentOthers_enumFrom_set d 0 i hi
  simpa [presentOthers] using this

theorem filter_isSome_map_some (d : List Chunk) :
    ((d.map some).filter (fun c => c.isSome)).length = d.length := by
  induction d with
  | nil => rfl
  | cons c rest ih => simpa [List.filter] using ih

theorem filter_isSome_set_none (d : List Chunk) : ∀ i : Nat, i < d.length →
    (((d.map some).set i none).filter (fun c => c.isSome)).length
      = d.length - 1 := by
  induction d with
  | nil => intro i hi; simp at hi
  | cons c rest ih =>
    intro i hi
    cases i with
    | zero =>
      show ((none :: rest.map some).filter _).length = _
      simpa [List.filter] using filter_isSome_map_some rest
    | succ i' =>
      have hi' : i' < rest.length := by simpa using hi
      show ((some c :: (rest.map some).set i' none).filter (fun c => c.isSome)).length
        = (c :: rest).length - 1
      rw [List.filter_cons]
      split
      · rw [List.length_cons, ih i' hi', List.length_cons]
        omega
      · rename_i hfalse
        exact absurd rfl hfalse

theorem map_getD_map_some (d : List Chunk) :
    (d.map some).map (fun c => c.getD []) = d := by
  rw [List.map_map]
  exact List.map_id'' (fun _ => rfl) d

theorem map_getD_set (d : List Chunk) (i : Nat) :
    ((d.map some).set i none).map (fun c => c.getD []) = d.set i [] := by
  rw [List.map_set, map_getD_map_some]
  rfl

theorem set_getD_self : ∀ (l : List Chunk) (i : Nat), i < l.length →
    l.set i (l.getD i []) = l := by
  intro l
  induction l with
  | nil => intro i hi; simp at hi
  | cons c rest ih =>
    intro i hi
    cases i with
    | zero => rfl
    | succ i' =>
      show c :: rest.set i' (rest.getD i' []) = c :: rest
      rw [ih i' (by simpa using hi)]

theorem dropWhile_replicate_zero_append (p : Nat → Bool) (hp : p 0 = true) :
    ∀ (n : Nat) (l : List Nat),
    (List.replicate n 0 ++ l).dropWhile p = l.dropWhile p := by
  intro n
  induction n with
  | zero => intro l; rfl
  | succ k ih => intro l; simp [List.replicate_succ, List.dropWhile, hp, ih]

theorem stripTrailingZeros_append_zeros (data : List Nat) (n : Nat) :
    stripTrailingZeros (data ++ List.replicate n 0) = stripTrailingZeros data := by
  unfold stripTrailingZeros
  rw [List.reverse_append, List.reverse_replicate,
    dropWhile_replicate_zero_append _ rfl]

theorem stripTrailingZeros_eq_self (data : List Nat)
    (h : data.getLast? ≠ some 0) : stripTrailingZeros data = data := by
  unfold stripTrailingZeros
  cases hr : data.reverse with
  | nil =>
    have : data = [] := by simpa using congrArg List.reverse hr
    simp [this]
  | cons x xs =>
    have hx : data.getLast? = some x := by
      rw [← List.head?_reverse, hr]
      rfl
    have hx0 : ¬ (x == 0) = true := by
      intro hc
      exact h (by rw [hx, show x = 0 by simpa using hc])
    rw [List.dropWhile_cons, if_neg hx0, ← hr, List.reverse_reverse]

end SimpleParityScheme

/-! ## Concatenating the split chunks gives back the padded payload -/

namespace SimpleParityScheme

theorem flatten_chunks (cs : Nat) (hcs : 1 ≤ cs) : ∀ (n : Nat) (l : List Nat),
    l.length ≤ n * cs →
    ((List.range n).map (fun i => padTo cs ((l.drop (i * cs)).take cs))).flatten
      = l ++ List.replicate (n * cs - l.length) 0 := by
  intro n
  induction n with
  | zero =>
    intro l hl
    have : l = [] := by
      cases l with
      | nil => rfl
      | cons a rest => simp at hl
    subst this
    simp
  | succ n ih =>
    intro l hl
    rw [List.range_succ_eq_map, List.map_cons, List.map_map, List.flatten_cons]
    have hmapeq :
        (List.range n).map ((fun i => padTo cs ((l.drop (i * cs)).take cs)) ∘ Nat.succ)
          = (List.range n).map (fun i => padTo cs (((l.drop cs).drop (i * cs)).take cs)) := by
      apply List.map_congr_left
      intro i _
      have : (i + 1) * cs = i * cs + cs := by ring
      simp only [Function.comp, Nat.succ_eq_add_one, this, List.drop_drop]
      rw [Nat.add_comm (i * cs) cs]
    rw [hmapeq, ih (l.drop cs) (by simp [List.length_drop]; rw [Nat.succ_mul] at hl; omega)]
    simp only [Nat.zero_mul, List.drop_zero]
    have hsm : (n + 1) * cs = n * cs + cs := by ring
    by_cases hlen : cs ≤ l.length
    · have hpad : padTo cs (l.take cs) = l.take cs := by
        simp [padTo, List.length_take]
        omega
      rw [hpad, ← List.append_assoc, List.take_append_drop]
      congr 1
      congr 1
      simp only [List.length_drop]
      omega
    · have hdrop : l.drop cs = [] := by
        apply List.drop_eq_nil_of_le
        omega
      have htake : l.take cs = l := List.take_of_length_le (by omega)
      have hpad : padTo cs (l.take cs) = l ++ List.replicate (cs - l.length) 0 := by
        simp [padTo, htake]
      rw [hpad, hdrop, List.append_assoc]
      simp only [List.nil_append, List.length_nil, Nat.sub_zero]
      rw [← List.replicate_add]
      congr 2
      omega

theorem flatten_split_data (s : SimpleParityScheme) (data : List Nat)
    (hk : 1 ≤ s.data_chunks) :
    (s.split_data data).flatten =
      data ++ List.replicate (s.data_chunks * s.chunkSizeOf data - data.length) 0 := by
  by_cases h0 : data.length = 0
  · have hnil : data = [] := by
      cases data with
      | nil => rfl
      | cons a rest => simp at h0
    subst hnil
    show (List.replicate s.data_chunks ([] : Chunk)).flatten = _
    rw [List.flatten_replicate_nil]
    simp [chunkSizeOf]
  · have hcsdef : s.chunkSizeOf data = (data.length + s.data_chunks - 1) / s.data_chunks := by
      simp [chunkSizeOf, h0]
    have hcs1 : 1 ≤ s.chunkSizeOf data := by
      rw [hcsdef]
      rw [Nat.le_div_iff_mul_le (by omega)]
      omega
    have hbound : data.length ≤ s.data_chunks * s.chunkSizeOf data := by
      rw [hcsdef]
      have hdm := Nat.div_add_mod (data.length + s.data_chunks - 1) s.data_chunks
      have hmlt : (data.length + s.data_chunks - 1) % s.data_chunks < s.data_chunks :=
        Nat.mod_lt _ (by omega)
      omega
    have hsplit : s.split_data data =
        (List.range s.data_chunks).map
          (fun i => padTo (s.chunkSizeOf data) ((data.drop (i * s.chunkSizeOf data)).take (s.chunkSizeOf data))) := by
      unfold split_data
      rw [if_neg h0]
      apply List.map_congr_left
      intro i _
      simp only [← hcsdef]
      split
      · rfl
      · rename_i hge
        have hdropnil : data.drop (i * s.chunkSizeOf data) = [] :=
          List.drop_eq_nil_of_le (by omega)
        rw [hdropnil]
        simp [padTo]
    rw [hsplit, flatten_chunks (s.chunkSizeOf data) hcs1 s.data_chunks data hbound]

end SimpleParityScheme

/-! ## Inverting `encode` and evaluating `recover_chunks` -/

namespace SimpleParityScheme

theorem encode_inv (s : SimpleParityScheme) (data : List Nat) (cs : List Chunk)
    (henc : s.encode data = some cs) :
    ∃ P, s.create_parity_chunks (s.split_data data) = some P ∧
      cs = s.split_data data ++ P := by
  unfold encode at henc
  cases hcp : s.create_parity_chunks (s.split_data data) with
  | none =>
    simp only [hcp] at henc
    exact Option.noConfusion henc
  | some P =>
    simp only [hcp, Option.some.injEq] at henc
    exact ⟨P, rfl, henc.symm⟩

theorem buildParity_length (dataChunks : List Chunk) (L : Nat) :
    ∀ (ps : List Nat) (rs : List Chunk),
    buildParity dataChunks L ps = some rs → rs.length = ps.length := by
  intro ps
  induction ps with
  | nil => intro rs h; cases h; rfl
  | cons p rest ih =>
    intro rs h
    unfold buildParity at h
    cases hpc : parityChunkFor dataChunks L p with
    | none => rw [hpc] at h; simp at h
    | some c =>
      cases hbp : buildParity dataChunks L rest with
      | none => rw [hpc, hbp] at h; simp at h
      | some cs' =>
        rw [hpc, hbp] at h
        simp only [Option.some.injEq] at h
        subst h
        simp [ih cs' hbp]

theorem create_parity_length (s : SimpleParityScheme) (dataChunks P : List Chunk)
    (hne : ¬ dataChunks.isEmpty) (hcp : s.create_parity_chunks dataChunks = some P) :
    P.length = s.parity_chunks := by
  unfold create_parity_chunks at hcp
  rw [if_neg hne] at hcp
  rw [buildParity_length _ _ _ _ hcp, List.length_range]

theorem parityChunkFor_zero (dataChunks : List Chunk) (L : Nat) :
    parityChunkFor dataChunks L 0 = xorLoop (List.replicate L 0) dataChunks := by
  unfold parityChunkFor
  have hfun : (fun q : Nat × Chunk => if shouldInclude 0 q.1 then some q.2 else none)
      = fun q : Nat × Chunk => some q.2 := by
    funext q
    simp [shouldInclude]
  rw [hfun]
  rw [show (fun q : Nat × Chunk => some q.2) = some ∘ Prod.snd from rfl]
  rw [List.filterMap_eq_map, List.enum_map_snd]

theorem create_parity_head (s : SimpleParityScheme) (dataChunks P : List Chunk)
    (hne : ¬ dataChunks.isEmpty) (hm : 1 ≤ s.parity_chunks)
    (hcp : s.create_parity_chunks dataChunks = some P) :
    ∃ c rest, P = c :: rest ∧
      parityChunkFor dataChunks (dataChunks.headD []).length 0 = some c := by
  unfold create_parity_chunks at hcp
  rw [if_neg hne] at hcp
  obtain ⟨m', hm'⟩ : ∃ m', s.parity_chunks = m' + 1 :=
    ⟨s.parity_chunks - 1, by omega⟩
  rw [hm', List.range_succ_eq_map] at hcp
  unfold buildParity at hcp
  cases hpc : parityChunkFor dataChunks (dataChunks.headD []).length 0 with
  | none => rw [hpc] at hcp; simp at hcp
  | some c =>
    cases hbp : buildParity dataChunks (dataChunks.headD []).length
        ((List.range m').map Nat.succ) with
    | none => rw [hpc, hbp] at hcp; simp at hcp
    | some rest =>
      rw [hpc, hbp] at hcp
      simp only [Option.some.injEq] at hcp
      exact ⟨c, rest, hcp.symm, rfl⟩

theorem recover_chunks_data_present (s : SimpleParityScheme) (d : List Chunk)
    (T : List (Option Chunk))
    (hdl : d.length = s.data_chunks) (hTl : T.length = s.parity_chunks) :
    s.recover_chunks (d.map some ++ T) = .ok d := by
  unfold recover_chunks
  have hlen : (d.map some ++ T).length = s.total_chunks := by
    simp [total_chunks, hdl, hTl]
  rw [if_neg (fun h => h hlen)]
  have hav : ((d.map some ++ T).filter (fun c => c.isSome)).length
      = s.data_chunks + (T.filter (fun c => c.isSome)).length := by
    rw [List.filter_append, List.length_append, filter_isSome_map_some, hdl]
  rw [hav]
  rw [if_neg (by simp [can_recover])]
  have htake : (d.map some ++ T).take s.data_chunks = d.map some :=
    List.take_left' (by simp [hdl])
  rw [htake]
  simp only [missingOf_map_some, map_getD_map_some]

theorem decode_round_trip (s : SimpleParityScheme) (data : List Nat)
    (hk : 1 ≤ s.data_chunks) (hlast : data.getLast? ≠ some 0)
    (cs : List Chunk) (henc : s.encode data = some cs) :
    s.decode (cs.map some) = .ok data := by
  obtain ⟨P, hcp, rfl⟩ := encode_inv s data cs henc
  have hdl := split_data_length s data
  have hne : ¬ (s.split_data data).isEmpty := by
    rw [List.isEmpty_iff_length_eq_zero, hdl]
    omega
  have hPl := create_parity_length s _ P hne hcp
  unfold decode
  rw [List.map_append]
  rw [recover_chunks_data_present s _ (P.map some) hdl (by simp [hPl])]
  show DResult.ok (stripTrailingZeros (s.split_data data).flatten) = DResult.ok data
  rw [flatten_split_data s data hk, stripTrailingZeros_append_zeros,
    stripTrailingZeros_eq_self data hlast]

end SimpleParityScheme

namespace SimpleParityScheme

theorem getD_replicate_zero (L j : Nat) :
    (List.replicate L (0 : Nat)).getD j 0 = 0 := by
  rcases Nat.lt_or_ge j L with h | h
  · rw [List.getD_eq_getElem?_getD, List.getElem?_replicate, if_pos h]
    rfl
  · rw [List.getD_eq_getElem?_getD, List.getElem?_eq_none (by simpa using h)]
    rfl

theorem eraseIdx_map_comm {α β : Type} (f : α → β) :
    ∀ (l : List α) (i : Nat), (l.eraseIdx i).map f = (l.map f).eraseIdx i := by
  intro l
  induction l with
  | nil => intro i; rfl
  | cons a rest ih =>
    intro i
    cases i with
    | zero => rfl
    | succ i' =>
      show f a :: (rest.eraseIdx i').map f = f a :: (rest.map f).eraseIdx i'
      rw [ih i']

theorem getD_map_getD (d : List Chunk) (i j : Nat) (hi : i < d.length) :
    (d.map (fun c => c.getD j 0)).getD i 0 = (d.getD i []).getD j 0 := by
  rw [List.getD_eq_getElem?_getD, List.getElem?_map,
    List.getElem?_eq_getElem hi]
  have hg : d.getD i [] = d.get ⟨i, hi⟩ := by
    rw [List.getD_eq_getElem?_getD, List.getElem?_eq_getElem hi]
    rfl
  rw [hg]
  rfl

/-- The heart of single-chunk recovery: XOR-ing the XOR of all data chunks
with every data chunk except index `i` recovers data chunk `i`. -/
theorem foldl_xorAt_eraseIdx (d : List Chunk) (L i : Nat)
    (hdL : ∀ c ∈ d, c.length = L) (hi : i < d.length) :
    (d.eraseIdx i).foldl xorAt (d.foldl xorAt (List.replicate L 0))
      = d.getD i [] := by
  have hP0len : (d.foldl xorAt (List.replicate L 0)).length = L := by
    rw [foldl_xorAt_length d _ (fun b hb => by simp [hdL b hb])]
    simp
  have herasesub : ∀ c ∈ d.eraseIdx i, c ∈ d := fun c hc =>
    List.eraseIdx_subset d i hc
  have hgetd : d.getD i [] = d.get ⟨i, hi⟩ := by
    rw [List.getD_eq_getElem?_getD, List.getElem?_eq_getElem hi]
    rfl
  have hmem : d.getD i [] ∈ d := by
    rw [hgetd]
    exact List.getElem_mem hi
  apply eq_of_getD
  · rw [foldl_xorAt_length _ _ (fun b hb => by
      rw [hP0len]; exact (hdL b (herasesub b hb)).le), hP0len,
      hdL _ hmem]
  · intro j
    rw [getD_foldl_xorAt _ _ (fun b hb => by
      rw [hP0len]; exact (hdL b (herasesub b hb)).le) j]
    rw [getD_foldl_xorAt d _ (fun b hb => by simp [hdL b hb]) j]
    rw [getD_replicate_zero]
    rw [← List.foldl_map (fun c : Chunk => c.getD j 0) (fun x z => x ^^^ z)]
    rw [← List.foldl_map (fun c : Chunk => c.getD j 0) (fun x z => x ^^^ z)]
    rw [eraseIdx_map_comm]
    rw [foldl_xor_shift]
    rw [xorSum_cancel (d.map (fun c => c.getD j 0)) i (by simpa using hi)]
    exact getD_map_getD d i j hi

theorem recover_chunks_one_missing (s : SimpleParityScheme) (d P : List Chunk)
    (L i : Nat) (pm : List Bool)
    (hdl : d.length = s.data_chunks) (hPl : P.length = s.parity_chunks)
    (hi : i < s.data_chunks)
    (hdL : ∀ c ∈ d, c.length = L)
    (hpm : pm.length = s.parity_chunks) (hp0 : pm.headD false = true)
    (hP0 : P.headD [] = d.foldl xorAt (List.replicate L 0)) :
    s.recover_chunks (((d.map some).set i none)
        ++ List.zipWith (fun b c => if b then some c else none) pm P)
      = .ok d := by
  have hi' : i < d.length := by omega
  cases pm with
  | nil => simp at hp0
  | cons b pm' =>
  cases P with
  | nil => rw [List.length_nil] at hPl; rw [← hPl] at hpm; simp at hpm
  | cons P0 P' =>
  have hb : b = true := by simpa using hp0
  subst hb
  have hP0' : P0 = d.foldl xorAt (List.replicate L 0) := by simpa using hP0
  have hpm' : pm'.length = s.parity_chunks - 1 := by
    simp only [List.length_cons] at hpm
    omega
  have hP' : P'.length = s.parity_chunks - 1 := by
    simp only [List.length_cons] at hPl
    omega
  have hm1 : 1 ≤ s.parity_chunks := by
    simp only [List.length_cons] at hPl
    omega
  have hsetlen : ((d.map some).set i none).length = s.data_chunks := by
    simp [hdl]
  have hzip : List.zipWith (fun b c => if b then some c else none) (true :: pm') (P0 :: P')
      = some P0 :: List.zipWith (fun b c => if b then some c else none) pm' P' := by
    simp
  rw [hzip]
  unfold recover_chunks
  have hlen : (((d.map some).set i none)
      ++ (some P0 :: List.zipWith (fun b c => if b then some c else none) pm' P')).length
      = s.total_chunks := by
    simp only [List.length_append, hsetlen, List.length_cons,
      List.length_zipWith, hpm', hP', total_chunks]
    omega
  rw [if_neg (fun h => h hlen)]
  have hav : ((((d.map some).set i none)
      ++ (some P0 :: List.zipWith (fun b c => if b then some c else none) pm' P')).filter
        (fun c => c.isSome)).length
      = (s.data_chunks - 1) + (1 +
        ((List.zipWith (fun b c => if b then some c else none) pm' P').filter
          (fun c => c.isSome)).length) := by
    rw [List.filter_append, List.length_append,
      filter_isSome_set_none d i hi', hdl, List.filter_cons]
    simp
    omega
  rw [hav]
  rw [if_neg (by simp [can_recover]; omega)]
  have htake : (((d.map some).set i none)
      ++ (some P0 :: List.zipWith (fun b c => if b then some c else none) pm' P')).take
        s.data_chunks = (d.map some).set i none :=
    List.take_left' hsetlen
  have hdrop : (((d.map some).set i none)
      ++ (some P0 :: List.zipWith (fun b c => if b then some c else none) pm' P')).drop
        s.data_chunks
      = some P0 :: List.zipWith (fun b c => if b then some c else none) pm' P' :=
    List.drop_left' hsetlen
  rw [htake, hdrop]
  simp only [missingOf_set d i hi', map_getD_set]
  rw [List.filterMap_cons]
  simp only [id, Option.isSome_some]
  have hothers := presentOthers_set d i hi'
  rw [hothers]
  have hP0len : P0.length = L := by
    rw [hP0', foldl_xorAt_length d _ (fun b hb => by simp [hdL b hb])]
    simp
  rw [xorLoop_eq_foldl (d.eraseIdx i) P0 (fun b hb => by
    rw [hP0len]
    exact (hdL b (List.eraseIdx_subset d i hb)).le)]
  rw [hP0', foldl_xorAt_eraseIdx d L i hdL hi']
  show DResult.ok ((d.set i []).set i (d.getD i [])) = DResult.ok d
  rw [List.set_set, set_getD_self d i hi']

end SimpleParityScheme

/-- C1 counterexample: for `k = 2`, `m = 2` and payload `[1, 2]`, the input
array obtained from the encoding `[[1], [2], [3], [2]]` by replacing exactly
one data position (index 0) by `None`, with a parity position still present
(index 3, parity chunk 1), decodes to `[0, 2]` — not the original payload
`[1, 2]`.  Recovery used parity chunk 1 (XOR of data chunk 1 only) because
parity position 0 was absent, so the claim as stated is false. -/
theorem C1_counterexample :
    SimpleParityScheme.encode ⟨2, 2⟩ [1, 2] = some [[1], [2], [3], [2]] ∧
    SimpleParityScheme.decode ⟨2, 2⟩ [none, some [2], none, some [2]]
      = .ok [0, 2] ∧
    ([0, 2] : List Nat) ≠ [1, 2] := by
  refine ⟨by decide, by decide, by decide⟩

/-- Core of the single-data-loss recovery: the encoding with data position
`i < k` replaced by `None`, parity positions masked by `pm`, parity
position 0 present, decodes back to the payload. -/
theorem decode_masked_single_loss (s : SimpleParityScheme) (data : List Nat)
    (i : Nat) (pm : List Bool)
    (hk : 1 ≤ s.data_chunks) (hi : i < s.data_chunks)
    (hlast : data.getLast? ≠ some 0)
    (hpm : pm.length = s.parity_chunks) (hp0 : pm.headD false = true)
    (cs : List Chunk) (henc : s.encode data = some cs) :
    s.decode (((cs.take s.data_chunks).map some).set i none
        ++ List.zipWith (fun b c => if b then some c else none) pm
            (cs.drop s.data_chunks))
      = .ok data := by
  obtain ⟨P, hcp, rfl⟩ := SimpleParityScheme.encode_inv s data cs henc
  have hdl := SimpleParityScheme.split_data_length s data
  have hchunkLen := SimpleParityScheme.split_data_chunk_length s data
  have hne : ¬ (s.split_data data).isEmpty := by
    rw [List.isEmpty_iff_length_eq_zero, hdl]
    omega
  have hPl := SimpleParityScheme.create_parity_length s _ P hne hcp
  have hm1 : 1 ≤ s.parity_chunks := by
    cases pm with
    | nil => simp at hp0
    | cons b pm' =>
      rw [← hpm]
      simp
  obtain ⟨c, rest, hPeq, hpc⟩ :=
    SimpleParityScheme.create_parity_head s _ P hne hm1 hcp
  have hhead : (s.split_data data).headD [] ∈ s.split_data data := by
    cases hs : s.split_data data with
    | nil => rw [hs] at hdl; simp at hdl; omega
    | cons a as => simp
  have hheadLen : ((s.split_data data).headD []).length = s.chunkSizeOf data :=
    hchunkLen _ hhead
  rw [hheadLen, SimpleParityScheme.parityChunkFor_zero,
    SimpleParityScheme.xorLoop_eq_foldl _ _ (fun b hb => by
      simp [hchunkLen b hb])] at hpc
  have hcval : c = (s.split_data data).foldl SimpleParityScheme.xorAt
      (List.replicate (s.chunkSizeOf data) 0) := by
    injection hpc with h
    exact h.symm
  have htake : (s.split_data data ++ P).take s.data_chunks = s.split_data data :=
    List.take_left' hdl
  have hdrop : (s.split_data data ++ P).drop s.data_chunks = P :=
    List.drop_left' hdl
  rw [htake, hdrop]
  unfold SimpleParityScheme.decode
  rw [SimpleParityScheme.recover_chunks_one_missing s (s.split_data data) P
    (s.chunkSizeOf data) i pm hdl hPl hi hchunkLen hpm hp0
    (by rw [hPeq, hcval]; rfl)]
  show DResult.ok (SimpleParityScheme.stripTrailingZeros
    (s.split_data data).flatten) = DResult.ok data
  rw [SimpleParityScheme.flatten_split_data s data hk,
    SimpleParityScheme.stripTrailingZeros_append_zeros,
    SimpleParityScheme.stripTrailingZeros_eq_self data hlast]

/-- C1 (amended): for every scheme with `k ≥ 1`, every payload not ending in
a zero byte, and every input array that is the encoding with exactly one
data position `i < k` replaced by `None` and with **parity position 0**
present (parity positions are kept or dropped according to the mask `pm`),
`decode` succeeds and returns the original payload.  (The unamended claim
only required *some* parity position to be present; `C1_counterexample`
shows recovery through a later parity chunk is wrong.) -/
theorem C1_decode_single_data_loss (s : SimpleParityScheme) (data : List Nat)
    (i : Nat) (pm : List Bool)
    (hk : 1 ≤ s.data_chunks) (hi : i < s.data_chunks)
    (hlast : data.getLast? ≠ some 0)
    (hpm : pm.length = s.parity_chunks) (hp0 : pm.headD false = true)
    (cs : List Chunk) (henc : s.encode data = some cs) :
    s.decode (((cs.take s.data_chunks).map some).set i none
        ++ List.zipWith (fun b c => if b then some c else none) pm
            (cs.drop s.data_chunks))
      = .ok data :=
  decode_masked_single_loss s data i pm hk hi hlast hpm hp0 cs henc

/-- Witness for the amended C1: `k = 2`, `m = 2`, payload `[1, 2]`, data
position 0 missing, parity position 0 present, parity position 1 dropped. -/
theorem C1_decode_single_data_loss_witness :
    SimpleParityScheme.decode ⟨2, 2⟩ [none, some [2], some [3], none]
      = .ok [1, 2] := by
  have h := C1_decode_single_data_loss ⟨2, 2⟩ [1, 2] 0 [true, false]
    (by decide) (by decide) (by decide) (by decide) (by decide)
    [[1], [2], [3], [2]] (by decide)
  have heq : (((([[1], [2], [3], [2]] : List Chunk).take 2).map some).set 0 none
      ++ List.zipWith (fun b c => if b then some c else none) [true, false]
          (([[1], [2], [3], [2]] : List Chunk).drop 2))
      = [none, some [2], some [3], none] := by decide
  rw [heq] at h
  exact h

/-- C2: for every scheme with `k ≥ 1` and `m ≥ 1` and every payload that
does not end in a zero byte (including the empty payload), decoding the
full output of `encode` (every chunk present) returns exactly the original
payload. -/
theorem C2_decode_encode_round_trip (s : SimpleParityScheme) (data : List Nat)
    (hk : 1 ≤ s.data_chunks) (hm : 1 ≤ s.parity_chunks)
    (hlast : data.getLast? ≠ some 0)
    (cs : List Chunk) (henc : s.encode data = some cs) :
    s.decode (cs.map some) = .ok data :=
  SimpleParityScheme.decode_round_trip s data hk hlast cs henc

/-- Witness for C2 at `k = 3`, `m = 2`, payload `[10, 20, 30, 40]`. -/
theorem C2_decode_encode_round_trip_witness :
    SimpleParityScheme.decode ⟨3, 2⟩
        [some [10, 20], some [30, 40], some [0, 0], some [10 ^^^ 30, 20 ^^^ 40],
          some [30, 40]]
      = .ok [10, 20, 30, 40] := by
  have henc : SimpleParityScheme.encode ⟨3, 2⟩ [10, 20, 30, 40]
      = some [[10, 20], [30, 40], [0, 0], [10 ^^^ 30, 20 ^^^ 40], [30, 40]] := by
    decide
  have := C2_decode_encode_round_trip ⟨3, 2⟩ [10, 20, 30, 40] (by decide)
    (by decide) (by decide) _ henc
  simpa using this

/-! ## Error taxonomy of `decode` on arbitrary inputs of the right length -/

namespace SimpleParityScheme

theorem length_filterMap_id (l : List (Option Chunk)) :
    (l.filterMap id).length = (l.filter (fun c => c.isSome)).length := by
  induction l with
  | nil => rfl
  | cons a rest ih =>
    cases a with
    | none => simpa [List.filterMap_cons, List.filter_cons] using ih
    | some c => simpa [List.filterMap_cons, List.filter_cons] using ih

theorem missingOf_length_enumFrom (l : List (Option Chunk)) : ∀ n : Nat,
    ((l.enumFrom n).filterMap
      (fun p => if p.2.isNone then some p.1 else none)).length
      = (l.filter (fun c => c.isNone)).length := by
  induction l with
  | nil => intro n; rfl
  | cons a rest ih =>
    intro n
    cases a with
    | none =>
      show (((n, none) :: rest.enumFrom (n + 1)).filterMap _).length = _
      simpa [List.filterMap_cons, List.filter_cons] using ih (n + 1)
    | some c =>
      show (((n, some c) :: rest.enumFrom (n + 1)).filterMap _).length = _
      simpa [List.filterMap_cons, List.filter_cons] using ih (n + 1)

theorem missingOf_length (l : List (Option Chunk)) :
    (missingOf l).length = (l.filter (fun c => c.isNone)).length :=
  missingOf_length_enumFrom l 0

theorem filter_isSome_add_isNone (l : List (Option Chunk)) :
    (l.filter (fun c => c.isSome)).length
      + (l.filter (fun c => c.isNone)).length = l.length := by
  induction l with
  | nil => rfl
  | cons a rest ih =>
    cases a with
    | none =>
      show ((none :: rest).filter _).length + ((none :: rest).filter _).length = _
      simp only [List.filter_cons]
      simp only [Option.isSome_none, Option.isNone_none,
        Bool.false_eq_true, if_false, if_true, List.length_cons]
      omega
    | some c =>
      show ((some c :: rest).filter _).length + ((some c :: rest).filter _).length = _
      simp only [List.filter_cons]
      simp only [Option.isSome_some, Option.isNone_some,
        Bool.false_eq_true, if_false, if_true, List.length_cons]
      omega

theorem mem_presentOthers (l : List (Option Chunk)) (i : Nat) (c : Chunk)
    (h : c ∈ presentOthers l i) : some c ∈ l := by
  unfold presentOthers at h
  rw [List.mem_filterMap] at h
  obtain ⟨q, hq, hqc⟩ := h
  split at hqc
  · exact hqc ▸ enum_snd_mem l q hq
  · cases hqc

end SimpleParityScheme

/-- C3 counterexample: a `(2, 1)` scheme given exactly `k + m = 3` chunks,
with 2 of them present (at least `k`) and only one data position missing —
the case the claim asserts must succeed — panics instead, because the
present data chunk `[1, 2]` is longer than the parity chunk `[]` and the
recovery loop indexes the parity-sized buffer out of bounds. -/
theorem C3_counterexample :
    SimpleParityScheme.decode ⟨2, 1⟩ [none, some [1, 2], some []]
      = .panicked := by decide

/-- C3 (amended): for every input of exactly `k + m` chunks whose present
chunks all share one length (as `encode` produces), decode fails with
`InsufficientChunks` exactly when fewer than `k` entries are present, fails
with `UnsupportedRecovery` exactly when at least `k` are present but more
than one of the first `k` (data) positions is missing, and succeeds in every
other case.  (The unamended claim had no length condition;
`C3_counterexample` shows a present data chunk longer than the first
available parity chunk makes the success case panic instead.) -/
theorem C3_decode_error_taxonomy (s : SimpleParityScheme)
    (chunks : List (Option Chunk)) (L : Nat)
    (hlen : chunks.length = s.data_chunks + s.parity_chunks)
    (hL : ∀ c ∈ chunks.filterMap id, c.length = L) :
    ((chunks.filter (fun c => c.isSome)).length < s.data_chunks
        ↔ s.decode chunks = .err .insufficientChunks) ∧
    ((s.data_chunks ≤ (chunks.filter (fun c => c.isSome)).length ∧
        2 ≤ (SimpleParityScheme.missingOf (chunks.take s.data_chunks)).length)
        ↔ s.decode chunks = .err .unsupportedRecovery) ∧
    ((s.data_chunks ≤ (chunks.filter (fun c => c.isSome)).length ∧
        (SimpleParityScheme.missingOf (chunks.take s.data_chunks)).length ≤ 1)
        → ∃ r, s.decode chunks = .ok r) := by
  have hlen' : chunks.length = s.total_chunks := hlen
  unfold SimpleParityScheme.decode SimpleParityScheme.recover_chunks
  rw [if_neg (fun h => h hlen')]
  by_cases hav : (chunks.filter (fun c => c.isSome)).length < s.data_chunks
  · rw [if_pos (by simp [SimpleParityScheme.can_recover]; omega)]
    refine ⟨⟨fun _ => rfl, fun _ => hav⟩, ⟨?_, ?_⟩, ?_⟩
    · rintro ⟨h1, _⟩; omega
    · intro h; exact absurd h (by decide)
    · rintro ⟨h1, _⟩; omega
  · rw [if_neg (by simp [SimpleParityScheme.can_recover]; omega)]
    cases hmiss : SimpleParityScheme.missingOf (chunks.take s.data_chunks) with
    | nil =>
      refine ⟨⟨fun h => absurd h (by omega), fun h => DResult.noConfusion h⟩,
        ⟨?_, fun h => DResult.noConfusion h⟩, fun _ => ⟨_, rfl⟩⟩
      rintro ⟨_, h2⟩
      simp at h2
    | cons m1 tail =>
      cases tail with
      | nil =>
        have htklen : (chunks.take s.data_chunks).length = s.data_chunks := by
          rw [List.length_take]
          omega
        have hmisslen :
            ((chunks.take s.data_chunks).filter (fun c => c.isNone)).length = 1 := by
          rw [← SimpleParityScheme.missingOf_length, hmiss]
          rfl
        have hsometk :
            ((chunks.take s.data_chunks).filter (fun c => c.isSome)).length
              = s.data_chunks - 1 := by
          have := SimpleParityScheme.filter_isSome_add_isNone (chunks.take s.data_chunks)
          omega
        have hk1 : 1 ≤ s.data_chunks := by
          have hle := List.length_filter_le (fun c => c.isNone)
            (chunks.take s.data_chunks)
          omega
        have hcount : (chunks.filter (fun c => c.isSome)).length
            = ((chunks.take s.data_chunks).filter (fun c => c.isSome)).length
              + ((chunks.drop s.data_chunks).filter (fun c => c.isSome)).length := by
          conv_lhs => rw [← List.take_append_drop s.data_chunks chunks]
          rw [List.filter_append, List.length_append]
        have hpar : 1 ≤ ((chunks.drop s.data_chunks).filter (fun c => c.isSome)).length := by
          omega
        cases hfm : (chunks.drop s.data_chunks).filterMap id with
        | nil =>
          exfalso
          have := SimpleParityScheme.length_filterMap_id (chunks.drop s.data_chunks)
          rw [hfm] at this
          simp at this
          omega
        | cons p ps =>
          have hpmem : p ∈ chunks.filterMap id := by
            have hp : p ∈ (chunks.drop s.data_chunks).filterMap id := by
              rw [hfm]
              exact List.mem_cons_self _ _
            rw [List.mem_filterMap] at hp ⊢
            obtain ⟨a, ha, hap⟩ := hp
            exact ⟨a, List.drop_subset _ _ ha, hap⟩
          have hothers : ∀ c ∈ SimpleParityScheme.presentOthers
              (chunks.take s.data_chunks) m1, c.length ≤ p.length := by
            intro c hc
            have hsc : some c ∈ chunks.take s.data_chunks :=
              SimpleParityScheme.mem_presentOthers _ m1 c hc
            have hcmem : c ∈ chunks.filterMap id := by
              rw [List.mem_filterMap]
              exact ⟨some c, List.take_subset _ _ hsc, rfl⟩
            rw [hL c hcmem, hL p hpmem]
          obtain ⟨r, hr, _⟩ := SimpleParityScheme.xorLoop_eq_some _ p hothers
          simp only [hfm, hr]
          refine ⟨⟨fun h => absurd h (by omega), fun h => DResult.noConfusion h⟩,
            ⟨?_, fun h => DResult.noConfusion h⟩, fun _ => ⟨_, rfl⟩⟩
          rintro ⟨_, h2⟩
          simp at h2
      | cons m2 tail2 =>
        refine ⟨⟨fun h => absurd h (by omega),
          fun h => EErr.noConfusion (DResult.err.inj h)⟩,
          ⟨fun _ => rfl, fun _ => ⟨by omega, ?_⟩⟩, ?_⟩
        · rw [List.length_cons, List.length_cons]
          omega
        · rintro ⟨_, h2⟩
          rw [List.length_cons, List.length_cons] at h2
          omega

/-- Witness for the amended C3 at `k = 2`, `m = 1` with equal-length present
chunks: one data position missing and one parity present decodes
successfully; the error characterizations hold at the same input. -/
theorem C3_decode_error_taxonomy_witness :
    ((([none, some [5], some [7]] : List (Option Chunk)).filter
        (fun c => c.isSome)).length < 2
      ↔ SimpleParityScheme.decode ⟨2, 1⟩ [none, some [5], some [7]]
          = .err .insufficientChunks) ∧
    ((2 ≤ (([none, some [5], some [7]] : List (Option Chunk)).filter
        (fun c => c.isSome)).length ∧
      2 ≤ (SimpleParityScheme.missingOf
        (([none, some [5], some [7]] : List (Option Chunk)).take 2)).length)
      ↔ SimpleParityScheme.decode ⟨2, 1⟩ [none, some [5], some [7]]
          = .err .unsupportedRecovery) ∧
    ((2 ≤ (([none, some [5], some [7]] : List (Option Chunk)).filter
        (fun c => c.isSome)).length ∧
      (SimpleParityScheme.missingOf
        (([none, some [5], some [7]] : List (Option Chunk)).take 2)).length ≤ 1)
      → ∃ r, SimpleParityScheme.decode ⟨2, 1⟩ [none, some [5], some [7]]
          = .ok r) :=
  C3_decode_error_taxonomy ⟨2, 1⟩ [none, some [5], some [7]] 1
    (by decide) (by decide)

/-- C9: `decode` checks the chunk count first: any input whose length is not
`k + m` yields the chunk-count error (so `decode` is total over
arbitrary-length inputs and never indexes a chunk there). -/
theorem C9_decode_wrong_length (s : SimpleParityScheme)
    (chunks : List (Option Chunk))
    (h : chunks.length ≠ s.data_chunks + s.parity_chunks) :
    s.decode chunks = .err .wrongChunkCount := by
  unfold SimpleParityScheme.decode SimpleParityScheme.recover_chunks
  rw [if_pos (by simpa [SimpleParityScheme.total_chunks] using h)]

/-- Witness for C9: a `(1, 1)` scheme refuses an empty chunk list. -/
theorem C9_decode_wrong_length_witness :
    SimpleParityScheme.decode ⟨1, 1⟩ [] = .err .wrongChunkCount :=
  C9_decode_wrong_length ⟨1, 1⟩ [] (by decide)

/-- C6: on a Failed node, `store`, `retrieve` and `delete` return the
`NodeUnavailable` error and leave the node (in particular its stored data)
unchanged, and `list_keys` returns the empty list; on a Healthy or Degraded
node all these operations succeed. -/
theorem C6_failed_node_rejects_operations (n : Node) (key : String) (d : Chunk) :
    (n.state = .Failed →
      (n.store key d).2 = .error .nodeUnavailable ∧ (n.store key d).1 = n ∧
      n.retrieve key = .error .nodeUnavailable ∧
      (n.delete key).2 = .error .nodeUnavailable ∧ (n.delete key).1 = n ∧
      n.list_keys = []) ∧
    (n.state ≠ .Failed →
      (n.store key d).2 = .ok () ∧ (∃ r, n.retrieve key = .ok r) ∧
      (n.delete key).2 = .ok ()) := by
  constructor
  · intro hf
    refine ⟨?_, ?_, ?_, ?_, ?_, ?_⟩ <;>
      simp [Node.store, Node.retrieve, Node.delete, Node.list_keys, hf]
  · intro hf
    unfold Node.store Node.retrieve Node.delete
    rw [if_neg hf, if_neg hf, if_neg hf]
    refine ⟨rfl, ⟨_, rfl⟩, ?_⟩
    cases dlookup n.data key <;> rfl

/-- Witness for C6: a node constructed Failed rejects everything; a fresh
Healthy node accepts everything. -/
theorem C6_failed_node_rejects_operations_witness :
    (((Node.with_state 1 .Failed).state = .Failed →
      ((Node.with_state 1 .Failed).store "k" [1]).2 = .error .nodeUnavailable ∧
      ((Node.with_state 1 .Failed).store "k" [1]).1 = Node.with_state 1 .Failed ∧
      (Node.with_state 1 .Failed).retrieve "k" = .error .nodeUnavailable ∧
      ((Node.with_state 1 .Failed).delete "k").2 = .error .nodeUnavailable ∧
      ((Node.with_state 1 .Failed).delete "k").1 = Node.with_state 1 .Failed ∧
      (Node.with_state 1 .Failed).list_keys = []) ∧
    ((Node.with_state 1 .Failed).state ≠ .Failed →
      ((Node.with_state 1 .Failed).store "k" [1]).2 = .ok () ∧
      (∃ r, (Node.with_state 1 .Failed).retrieve "k" = .ok r) ∧
      ((Node.with_state 1 .Failed).delete "k").2 = .ok ())) ∧
    ((Node.new 0).state ≠ .Failed →
      ((Node.new 0).store "k" [1]).2 = .ok () ∧
      (∃ r, (Node.new 0).retrieve "k" = .ok r) ∧
      ((Node.new 0).delete "k").2 = .ok ()) :=
  ⟨C6_failed_node_rejects_operations (Node.with_state 1 .Failed) "k" [1],
    (C6_failed_node_rejects_operations (Node.new 0) "k" [1]).2⟩

/-- C10: the health transitions `set_state`, `fail`, `recover` and `degrade`
change only the `state` and `latency_ms` fields — chunk map, statistics and
id are untouched — and a chunk stored before `fail` is still retrieved
after `recover`. -/
theorem C10_health_transitions_preserve_data (n : Node) (st : NodeState)
    (key : String) :
    (n.set_state st).data = n.data ∧ (n.set_state st).stats = n.stats ∧
    (n.set_state st).id = n.id ∧
    n.fail.data = n.data ∧ n.fail.stats = n.stats ∧ n.fail.id = n.id ∧
    n.recover.data = n.data ∧ n.recover.stats = n.stats ∧
    n.recover.id = n.id ∧
    n.degrade.data = n.data ∧ n.degrade.stats = n.stats ∧
    n.degrade.id = n.id ∧
    n.fail.recover.retrieve key = .ok (dlookup n.data key) := by
  refine ⟨rfl, rfl, rfl, rfl, rfl, rfl, rfl, rfl, rfl, ?_, ?_, ?_, ?_⟩
  · unfold Node.degrade
    split <;> rfl
  · unfold Node.degrade
    split <;> rfl
  · unfold Node.degrade
    split <;> rfl
  · rfl

/-- C8: executing a `NodeRestart(id)` recovery reports success exactly when
node `id` exists and is currently Failed; on success that node becomes
Healthy and every other node is untouched; on failure the cluster is
returned unchanged. -/
theorem C8_node_restart (c : Cluster) (id : Nat) :
    (∃ c' b, RecoveryCoordinator.execute_recovery c (.NodeRestart id) = .ok (c', b) ∧
      (b = true ↔ ∃ n, c.get_node id = some n ∧ n.state = .Failed) ∧
      (b = true → ∀ n, c.get_node id = some n →
        c'.get_node id = some n.recover ∧
        ∀ j, j ≠ id → c'.get_node j = c.get_node j) ∧
      (b = false → c' = c)) := by
  have hdispatch : RecoveryCoordinator.execute_recovery c (.NodeRestart id)
      = RecoveryCoordinator.restart_node c id := rfl
  rw [hdispatch]
  unfold RecoveryCoordinator.restart_node
  cases hn : c.get_node id with
  | none =>
    refine ⟨c, false, rfl, ?_, ?_, fun _ => rfl⟩
    · constructor
      · intro h; exact Bool.noConfusion h
      · rintro ⟨n, hn', _⟩
        exact Option.noConfusion hn'
    · intro h; exact Bool.noConfusion h
  | some n =>
    by_cases hf : n.state = .Failed
    · have hrec : c.recover_node id
          = .ok { c with nodes := aupdate c.nodes id n.recover } := by
        unfold Cluster.recover_node
        unfold Cluster.get_node at hn
        rw [hn]
      simp only [hf, hrec]
      refine ⟨_, true, rfl, ?_, ?_, ?_⟩
      · exact ⟨fun _ => ⟨n, rfl, hf⟩, fun _ => rfl⟩
      · intro _ n' hn'
        injection hn' with hn'
        subst hn'
        constructor
        · show alookup (aupdate c.nodes id n.recover) id = some n.recover
          unfold Cluster.get_node at hn
          exact alookup_aupdate_self c.nodes id n.recover n hn
        · intro j hj
          show alookup (aupdate c.nodes id n.recover) j = alookup c.nodes j
          exact alookup_aupdate_ne c.nodes id n.recover j hj
      · intro h; exact Bool.noConfusion h
    · simp only [hf]
      refine ⟨c, false, rfl, ?_, ?_, fun _ => rfl⟩
      · constructor
        · intro h; exact Bool.noConfusion h
        · rintro ⟨n', hn', hf'⟩
          injection hn' with hn'
          exact absurd (hn' ▸ hf') hf
      · intro h; exact Bool.noConfusion h

/-- Witness for C8 on a two-node cluster whose node 0 is Failed. -/
theorem C8_node_restart_witness :
    (∃ c' b, RecoveryCoordinator.execute_recovery
        ⟨[(0, Node.with_state 0 .Failed), (1, Node.new 1)], 2, none⟩
        (.NodeRestart 0) = .ok (c', b) ∧
      (b = true ↔ ∃ n, Cluster.get_node
        ⟨[(0, Node.with_state 0 .Failed), (1, Node.new 1)], 2, none⟩ 0
          = some n ∧ n.state = .Failed) ∧
      (b = true → ∀ n, Cluster.get_node
        ⟨[(0, Node.with_state 0 .Failed), (1, Node.new 1)], 2, none⟩ 0
          = some n →
        c'.get_node 0 = some n.recover ∧
        ∀ j, j ≠ 0 → c'.get_node j = Cluster.get_node
          ⟨[(0, Node.with_state 0 .Failed), (1, Node.new 1)], 2, none⟩ j) ∧
      (b = false → c' = ⟨[(0, Node.with_state 0 .Failed), (1, Node.new 1)], 2, none⟩)) :=
  C8_node_restart ⟨[(0, Node.with_state 0 .Failed), (1, Node.new 1)], 2, none⟩ 0

/-- C5: for every scheme with `k ≥ 1` data chunks, `encode` succeeds and
returns exactly `k + m` chunks, all of the same length, namely
`ceil (len data / k)` for non-empty input and `0` for empty input. -/
theorem C5_encode_chunk_shape (s : SimpleParityScheme) (data : List Nat)
    (hk : 1 ≤ s.data_chunks) :
    ∃ cs, s.encode data = some cs ∧
      cs.length = s.data_chunks + s.parity_chunks ∧
      ∀ c ∈ cs, c.length =
        if data.length = 0 then 0
        else (data.length + s.data_chunks - 1) / s.data_chunks := by
  obtain ⟨cs, h1, h2, h3⟩ := SimpleParityScheme.encode_eq_some s data hk
  exact ⟨cs, h1, h2, fun c hc => h3 c hc⟩

/-- Witness for C5 at `k = 2`, `m = 1`, payload `[1, 2, 3]`. -/
theorem C5_encode_chunk_shape_witness :
    ∃ cs, SimpleParityScheme.encode ⟨2, 1⟩ [1, 2, 3] = some cs ∧
      cs.length = 2 + 1 ∧
      ∀ c ∈ cs, c.length =
        if ([1, 2, 3] : List Nat).length = 0 then 0
        else (([1, 2, 3] : List Nat).length + 2 - 1) / 2 :=
  C5_encode_chunk_shape ⟨2, 1⟩ [1, 2, 3] (by decide)

/-! ## The chunk-distribution fold of `store_data` -/

theorem dlookup_dinsert : ∀ (d : List (String × Chunk)) (k : String) (v : Chunk),
    dlookup (dinsert d k v) k = some v := by
  intro d
  induction d with
  | nil =>
    intro k v
    show (if k = k then some v else none) = some v
    rw [if_pos rfl]
  | cons p rest ih =>
    intro k v
    by_cases hk : p.1 = k
    · show dlookup (if p.1 = k then (k, v) :: rest else _) k = some v
      rw [if_pos hk]
      show (if k = k then some v else dlookup rest k) = some v
      rw [if_pos rfl]
    · show dlookup (if p.1 = k then _ else (p.1, p.2) :: dinsert rest k v) k = some v
      rw [if_neg hk]
      show (if p.1 = k then some p.2 else dlookup (dinsert rest k v) k) = some v
      rw [if_neg hk]
      exact ih k v

theorem store_result_of_available (n : Node) (key : String) (d : Chunk)
    (h : n.state ≠ .Failed) :
    n.store key d = ({ n with
      data := dinsert n.data key d
      stats := n.stats.record_write d.length }, .ok ()) := by
  unfold Node.store
  rw [if_neg h]

theorem is_available_iff (n : Node) :
    n.is_available = true ↔ n.state ≠ .Failed := by
  unfold Node.is_available
  exact decide_eq_true_iff

theorem storeStep_eq_ok (ids : List Nat) (key : String)
    (nodes : List (Nat × Node)) (p : Nat × Chunk) :
    storeStep ids key nodes p = .ok (storeStepF ids key nodes p) := by
  unfold storeStep storeStepF
  by_cases hlt : p.1 < ids.length
  · rw [if_pos hlt, if_pos hlt]
    cases halk : alookup nodes (ids.getD p.1 0) with
    | none => rfl
    | some node =>
      by_cases hav : node.is_available
      · simp only [hav, if_true]
        have hnf : node.state ≠ .Failed := (is_available_iff node).mp hav
        rw [store_result_of_available node _ _ hnf]
      · simp only [hav]
        rfl
  · rw [if_neg hlt, if_neg hlt]

theorem storeFold_ok (ids : List Nat) (key : String) :
    ∀ (l : List (Nat × Chunk)) (nodes : List (Nat × Node)),
    List.foldlM (storeStep ids key) nodes l
      = .ok (l.foldl (storeStepF ids key) nodes) := by
  intro l
  induction l with
  | nil => intro nodes; rfl
  | cons p rest ih =>
    intro nodes
    show (storeStep ids key nodes p >>= fun ns =>
      List.foldlM (storeStep ids key) ns rest) = _
    rw [storeStep_eq_ok]
    show List.foldlM (storeStep ids key) (storeStepF ids key nodes p) rest = _
    rw [ih]
    rfl

theorem storeStepF_lookup_ne (ids : List Nat) (key : String)
    (nodes : List (Nat × Node)) (p : Nat × Chunk) (nid : Nat)
    (h : p.1 < ids.length → ids.getD p.1 0 ≠ nid) :
    alookup (storeStepF ids key nodes p) nid = alookup nodes nid := by
  unfold storeStepF
  by_cases hlt : p.1 < ids.length
  · rw [if_pos hlt]
    cases halk : alookup nodes (ids.getD p.1 0) with
    | none => rfl
    | some node =>
      by_cases hav : node.is_available
      · simp only [hav, if_true]
        exact alookup_aupdate_ne nodes _ _ nid (Ne.symm (h hlt))
      · simp only [hav]
        rfl
  · rw [if_neg hlt]

theorem storeStepF_keys (ids : List Nat) (key : String)
    (nodes : List (Nat × Node)) (p : Nat × Chunk) :
    (storeStepF ids key nodes p).map Prod.fst = nodes.map Prod.fst := by
  unfold storeStepF
  by_cases hlt : p.1 < ids.length
  · rw [if_pos hlt]
    cases halk : alookup nodes (ids.getD p.1 0) with
    | none => rfl
    | some node =>
      by_cases hav : node.is_available
      · simp only [hav, if_true]
        exact aupdate_keys nodes _ _
      · simp only [hav]
        rfl
  · rw [if_neg hlt]

theorem storeFold_keys (ids : List Nat) (key : String) :
    ∀ (l : List (Nat × Chunk)) (nodes : List (Nat × Node)),
    (l.foldl (storeStepF ids key) nodes).map Prod.fst = nodes.map Prod.fst := by
  intro l
  induction l with
  | nil => intro nodes; rfl
  | cons p rest ih =>
    intro nodes
    rw [List.foldl_cons, ih, storeStepF_keys]

theorem storeFold_untouched (ids : List Nat) (key : String) :
    ∀ (cs : List Chunk) (t : Nat) (nodes : List (Nat × Node)) (nid : Nat),
    (∀ i : Nat, i < cs.length → t + i < ids.length → ids.getD (t + i) 0 ≠ nid) →
    alookup ((cs.enumFrom t).foldl (storeStepF ids key) nodes) nid
      = alookup nodes nid := by
  intro cs
  induction cs with
  | nil => intro t nodes nid _; rfl
  | cons c rest ih =>
    intro t nodes nid h
    show alookup ((rest.enumFrom (t + 1)).foldl (storeStepF ids key)
      (storeStepF ids key nodes (t, c))) nid = _
    rw [ih (t + 1) _ nid (fun i hi hlt => by
      have harith : t + 1 + i = t + (i + 1) := by omega
      rw [harith]
      exact h (i + 1) (by simp; omega) (by omega))]
    exact storeStepF_lookup_ne ids key nodes (t, c) nid (fun hlt => by
      have h0 := h 0 (by simp) (by simpa using hlt)
      simpa using h0)

theorem storeFold_hit (ids : List Nat) (key : String) :
    ∀ (cs : List Chunk) (t i0 : Nat) (nodes : List (Nat × Node)) (node : Node),
    i0 < cs.length → t + i0 < ids.length →
    (∀ i : Nat, i < cs.length → i ≠ i0 → t + i < ids.length →
      ids.getD (t + i) 0 ≠ ids.getD (t + i0) 0) →
    alookup nodes (ids.getD (t + i0) 0) = some node →
    alookup ((cs.enumFrom t).foldl (storeStepF ids key) nodes)
        (ids.getD (t + i0) 0)
      = some (if node.is_available
          then (node.store (chunkKey key (t + i0)) (cs.getD i0 [])).1
          else node) := by
  intro cs
  induction cs with
  | nil => intro t i0 nodes node h; simp at h
  | cons c rest ih =>
    intro t i0 nodes node hi0 hlt hdist hlook
    cases i0 with
    | zero =>
      show alookup ((rest.enumFrom (t + 1)).foldl (storeStepF ids key)
        (storeStepF ids key nodes (t, c))) (ids.getD (t + 0) 0) = _
      rw [storeFold_untouched ids key rest (t + 1) _ _ (fun i hi hlt' => by
        have harith : t + 1 + i = t + (i + 1) := by omega
        rw [harith]
        exact hdist (i + 1) (by simp; omega) (by omega) (by omega))]
      simp only [Nat.add_zero] at hlook ⊢
      unfold storeStepF
      rw [if_pos (by simpa using hlt)]
      show alookup (match alookup nodes (ids.getD t 0) with
        | some node => if node.is_available
            then aupdate nodes (ids.getD t 0) (node.store (chunkKey key t) c).1
            else nodes
        | none => nodes) (ids.getD t 0) = _
      rw [hlook]
      by_cases hav : node.is_available
      · simp only [hav, if_true]
        exact alookup_aupdate_self nodes _ _ node hlook
      · simp only [hav]
        exact hlook
    | succ j =>
      show alookup ((rest.enumFrom (t + 1)).foldl (storeStepF ids key)
        (storeStepF ids key nodes (t, c))) (ids.getD (t + (j + 1)) 0) = _
      have harith : t + (j + 1) = t + 1 + j := by omega
      have hstep : alookup (storeStepF ids key nodes (t, c))
          (ids.getD (t + (j + 1)) 0) = some node := by
        rw [storeStepF_lookup_ne ids key nodes (t, c) _ (fun hlt' => by
          have h0 := hdist 0 (by simp) (by omega) (by simpa using hlt')
          simpa using h0)]
        exact hlook
      rw [harith] at hstep ⊢
      rw [ih (t + 1) j _ node (by simpa using hi0) (by omega)
        (fun i hi hne hlt' => by
          have harith2 : t + 1 + i = t + (i + 1) := by omega
          have harith3 : t + 1 + j = t + (j + 1) := by omega
          rw [harith2, harith3]
          exact hdist (i + 1) (by simp; omega) (by omega) (by omega))
        hstep]
      have harith4 : t + 1 + j = t + (j + 1) := by omega
      rw [harith4]
      simp only [List.getD_cons_succ]

/-! ## `store_data` and its placement guarantees -/

theorem getD_nat_eq_get (l : List Nat) (n : Nat) (h : n < l.length) :
    l.getD n 0 = l.get ⟨n, h⟩ := by
  rw [List.getD_eq_getElem?_getD, List.getElem?_eq_getElem h]
  rfl

theorem nodup_getD_ne (l : List Nat) (h : l.Nodup) (i j : Nat)
    (hi : i < l.length) (hj : j < l.length) (hij : i ≠ j) :
    l.getD i 0 ≠ l.getD j 0 := by
  rw [getD_nat_eq_get l i hi, getD_nat_eq_get l j hj]
  intro he
  exact hij (h.getElem_inj_iff.mp he)

theorem getD_mem_of_lt (l : List Nat) (n : Nat) (h : n < l.length) :
    l.getD n 0 ∈ l := by
  rw [List.getD_eq_getElem?_getD, List.getElem?_eq_getElem h]
  exact l.getElem_mem h

theorem store_data_spec (c : Cluster) (s : SimpleParityScheme) (key : String)
    (data : List Nat) (cs : List Chunk)
    (hs : c.scheme = some s) (henc : s.encode data = some cs)
    (hcount : cs.length ≤ c.node_count) :
    c.store_data key data
      = .ok { c with nodes := cs.enum.foldl (storeStepF c.node_ids key) c.nodes } := by
  unfold Cluster.store_data
  simp only [hs, henc]
  rw [if_neg (by omega)]
  rw [storeFold_ok]

/-- C7: with a configured scheme (`k ≥ 1`) and `k + m` at most the node
count, `store_data` returns `Ok` regardless of node health: chunk `i` is
written under `"{key}_{i}"` to the `i`-th enumerated node exactly when that
node is available, and a chunk whose target is unavailable is skipped
silently, leaving that node untouched; with more chunks than nodes it
fails with `InsufficientNodes`. -/
theorem C7_store_data_placement (c : Cluster) (s : SimpleParityScheme)
    (key : String) (data : List Nat)
    (hk : 1 ≤ s.data_chunks) (hs : c.scheme = some s)
    (hnodup : (c.nodes.map Prod.fst).Nodup) :
    (c.node_count < s.data_chunks + s.parity_chunks →
      c.store_data key data = .err .insufficientNodes) ∧
    (s.data_chunks + s.parity_chunks ≤ c.node_count →
      ∀ cs, s.encode data = some cs →
      ∃ c', c.store_data key data = .ok c' ∧
        c'.node_ids = c.node_ids ∧
        ∀ i, i < s.data_chunks + s.parity_chunks →
          ∀ node, c.get_node (c.node_ids.getD i 0) = some node →
            (node.is_available = true →
              c'.get_node (c.node_ids.getD i 0)
                = some (node.store (chunkKey key i) (cs.getD i [])).1 ∧
              dlookup ((node.store (chunkKey key i) (cs.getD i [])).1).data
                  (chunkKey key i) = some (cs.getD i [])) ∧
            (node.is_available = false →
              c'.get_node (c.node_ids.getD i 0) = some node)) := by
  obtain ⟨cs0, henc0, hlen0, _⟩ := SimpleParityScheme.encode_eq_some s data hk
  have hlen0' : cs0.length = s.data_chunks + s.parity_chunks := hlen0
  have hids : c.node_ids.length = c.node_count := by
    unfold Cluster.node_ids Cluster.node_count
    simp
  constructor
  · intro hlt
    unfold Cluster.store_data
    simp only [hs, henc0]
    rw [if_pos (by omega)]
  · intro hge cs henc
    have hcs : cs0 = cs := by
      rw [henc] at henc0
      injection henc0 with h
      exact h.symm
    subst hcs
    have hspec := store_data_spec c s key data cs0 hs henc (by omega)
    refine ⟨_, hspec, ?_, ?_⟩
    · show ((cs0.enum.foldl (storeStepF c.node_ids key) c.nodes).map Prod.fst)
        = c.nodes.map Prod.fst
      exact storeFold_keys c.node_ids key cs0.enum c.nodes
    · intro i hi node hnode
      have hi_ids : i < c.node_ids.length := by omega
      have hdist : ∀ i' : Nat, i' < cs0.length → i' ≠ i →
          0 + i' < c.node_ids.length →
          c.node_ids.getD (0 + i') 0 ≠ c.node_ids.getD (0 + i) 0 := by
        intro i' hi' hne hlt'
        simp only [Nat.zero_add]
        exact nodup_getD_ne c.node_ids hnodup i' i (by omega) hi_ids hne
      have hhit := storeFold_hit c.node_ids key cs0 0 i c.nodes node
        (by omega) (by omega) hdist (by simpa using hnode)
      simp only [Nat.zero_add] at hhit
      constructor
      · intro hav
        constructor
        · show alookup ((cs0.enumFrom 0).foldl (storeStepF c.node_ids key) c.nodes)
            (c.node_ids.getD i 0) = _
          rw [hhit, if_pos hav]
        · have hnf : node.state ≠ .Failed := (is_available_iff node).mp hav
          rw [store_result_of_available node _ _ hnf]
          exact dlookup_dinsert node.data (chunkKey key i) (cs0.getD i [])
      · intro hnav
        show alookup ((cs0.enumFrom 0).foldl (storeStepF c.node_ids key) c.nodes)
          (c.node_ids.getD i 0) = _
        rw [hhit, if_neg (by rw [hnav]; exact Bool.false_ne_true)]

/-- Witness for C7: a 2-node cluster cannot hold the 3 chunks of a `(2, 1)`
scheme. -/
theorem C7_store_data_placement_witness :
    ((Cluster.with_nodes 2).set_scheme ⟨2, 1⟩).store_data "k" [1, 2, 3]
      = .err .insufficientNodes :=
  (C7_store_data_placement ((Cluster.with_nodes 2).set_scheme ⟨2, 1⟩) ⟨2, 1⟩
    "k" [1, 2, 3] (by decide) (by decide) (by decide)).1 (by decide)

/-! ## Store / fail one node / retrieve -/

namespace SimpleParityScheme

theorem getD_chunk_eq_get (d : List Chunk) (n : Nat) (h : n < d.length) :
    d.getD n [] = d.get ⟨n, h⟩ := by
  rw [List.getD_eq_getElem?_getD, List.getElem?_eq_getElem h]
  rfl

theorem zipWith_mask_replicate_true : ∀ (P : List Chunk),
    List.zipWith (fun b c => if b then some c else none)
      (List.replicate P.length true) P = P.map some := by
  intro P
  induction P with
  | nil => rfl
  | cons c rest ih =>
    show (if true then some c else none) ::
      List.zipWith _ (List.replicate rest.length true) rest = some c :: rest.map some
    rw [if_pos rfl, ih]

/-- Removing any single chunk (data or parity) from the full encoding still
decodes to the payload. -/
theorem decode_set_none (s : SimpleParityScheme) (data : List Nat)
    (cs : List Chunk) (j : Nat)
    (hk : 1 ≤ s.data_chunks) (hm : 1 ≤ s.parity_chunks)
    (hj : j < s.data_chunks + s.parity_chunks)
    (hlast : data.getLast? ≠ some 0)
    (henc : s.encode data = some cs) :
    s.decode ((cs.map some).set j none) = .ok data := by
  obtain ⟨P, hcp, hcseq⟩ := encode_inv s data cs henc
  have hdl := split_data_length s data
  have hne : ¬ (s.split_data data).isEmpty := by
    rw [List.isEmpty_iff_length_eq_zero, hdl]
    omega
  have hPl := create_parity_length s _ P hne hcp
  by_cases hjk : j < s.data_chunks
  · have htk : cs.take s.data_chunks = s.split_data data := by
      rw [hcseq]
      exact List.take_left' hdl
    have hdr : cs.drop s.data_chunks = P := by
      rw [hcseq]
      exact List.drop_left' hdl
    have h1 : (cs.map some).set j none
        = ((cs.take s.data_chunks).map some).set j none
          ++ List.zipWith (fun b c => if b then some c else none)
              (List.replicate s.parity_chunks true) (cs.drop s.data_chunks) := by
      rw [htk, hdr, ← hPl, zipWith_mask_replicate_true, hcseq, List.map_append]
      rw [List.set_append_left j none (by simp [hdl]; omega)]
    rw [h1]
    have hp0 : (List.replicate s.parity_chunks true).headD false = true := by
      obtain ⟨m', hm'⟩ : ∃ m', s.parity_chunks = m' + 1 :=
        ⟨s.parity_chunks - 1, by omega⟩
      rw [hm', List.replicate_succ]
      rfl
    exact decode_masked_single_loss s data j
      (List.replicate s.parity_chunks true) hk hjk hlast (by simp) hp0 cs henc
  · have h1 : (cs.map some).set j none
        = (s.split_data data).map some
          ++ ((P.map some).set (j - s.data_chunks) none) := by
      rw [hcseq, List.map_append]
      rw [List.set_append_right j none (by simp [hdl]; omega)]
      congr 2
      simp [hdl]
    rw [h1]
    unfold decode
    rw [recover_chunks_data_present s _ _ hdl (by simp [hPl])]
    show DResult.ok (stripTrailingZeros (s.split_data data).flatten)
      = DResult.ok data
    rw [flatten_split_data s data hk, stripTrailingZeros_append_zeros,
      stripTrailingZeros_eq_self data hlast]

end SimpleParityScheme

theorem range_map_ite_set (cs : List Chunk) (j : Nat) (hj : j < cs.length) :
    (List.range cs.length).map
      (fun i => if i = j then (none : Option Chunk) else some (cs.getD i []))
      = (cs.map some).set j none := by
  apply List.ext_getElem?
  intro n
  by_cases hn : n < cs.length
  · rw [List.getElem?_map, List.getElem?_range hn]
    show some (if n = j then none else some (cs.getD n [])) = _
    by_cases hnj : n = j
    · subst hnj
      rw [if_pos rfl]
      rw [List.getElem?_set_eq_of_lt none (by simp [hj])]
    · rw [if_neg hnj]
      rw [List.getElem?_set_ne (fun he => hnj he.symm)]
      rw [List.getElem?_map, List.getElem?_eq_getElem hn]
      rw [SimpleParityScheme.getD_chunk_eq_get cs n hn]
      rfl
  · rw [List.getElem?_eq_none (by simp; omega),
      List.getElem?_eq_none (by simp; omega)]

theorem retrieve_of_not_failed (n : Node) (key : String)
    (h : n.state ≠ .Failed) :
    n.retrieve key = .ok (dlookup n.data key) := by
  unfold Node.retrieve
  rw [if_neg h]

theorem store_fst_state (n : Node) (key : String) (d : Chunk)
    (h : n.state ≠ .Failed) : ((n.store key d).1).state = n.state := by
  rw [store_result_of_available n key d h]

theorem store_fst_data (n : Node) (key : String) (d : Chunk)
    (h : n.state ≠ .Failed) :
    ((n.store key d).1).data = dinsert n.data key d := by
  rw [store_result_of_available n key d h]

theorem retrieve_data_eval (c2 : Cluster) (s : SimpleParityScheme)
    (key : String) (hs2 : c2.scheme = some s) :
    c2.retrieve_data key
      = s.decode ((List.range s.total_chunks).map (fun i =>
          if i < c2.node_ids.length then
            match alookup c2.nodes (c2.node_ids.getD i 0) with
            | some node =>
              match node.retrieve (chunkKey key i) with
              | .ok r => r
              | .error _ => none
            | none => none
          else none)) := by
  unfold Cluster.retrieve_data
  simp only [hs2]

/-- C4: after a successful `store_data` on a cluster with a configured
`(k, m)` scheme whose first `k + m` enumerated nodes are all available,
failing any one of the `k + m` chunk-bearing nodes still lets
`retrieve_data` reproduce the original payload (which must not end in a
zero byte).  Node enumeration is the fixed deterministic order that the
spec's open question prescribes. -/
theorem C4_store_fail_retrieve (c : Cluster) (s : SimpleParityScheme)
    (key : String) (data : List Nat) (j : Nat)
    (hk : 1 ≤ s.data_chunks) (hm : 1 ≤ s.parity_chunks)
    (hs : c.scheme = some s)
    (hnodup : (c.nodes.map Prod.fst).Nodup)
    (hcount : s.data_chunks + s.parity_chunks ≤ c.node_count)
    (havail : ∀ i, i < s.data_chunks + s.parity_chunks →
      ∀ node, c.get_node (c.node_ids.getD i 0) = some node →
        node.is_available = true)
    (hj : j < s.data_chunks + s.parity_chunks)
    (hlast : data.getLast? ≠ some 0) :
    ∃ c1, c.store_data key data = .ok c1 ∧
    ∃ c2, c1.fail_node (c.node_ids.getD j 0) = .ok c2 ∧
      c2.retrieve_data key = .ok data := by
  obtain ⟨cs, henc, hlen0, _⟩ := SimpleParityScheme.encode_eq_some s data hk
  have hlen : cs.length = s.data_chunks + s.parity_chunks := hlen0
  have hids_len : c.node_ids.length = c.node_count := by
    unfold Cluster.node_ids Cluster.node_count
    simp
  have hstore := store_data_spec c s key data cs hs henc (by omega)
  have hstored : ∀ i, i < s.data_chunks + s.parity_chunks →
      ∀ node, alookup c.nodes (c.node_ids.getD i 0) = some node →
      alookup (cs.enum.foldl (storeStepF c.node_ids key) c.nodes)
          (c.node_ids.getD i 0)
        = some ((node.store (chunkKey key i) (cs.getD i [])).1) := by
    intro i hi node hnode
    show alookup ((cs.enumFrom 0).foldl (storeStepF c.node_ids key) c.nodes)
      (c.node_ids.getD i 0) = _
    have hdist : ∀ i' : Nat, i' < cs.length → i' ≠ i →
        0 + i' < c.node_ids.length →
        c.node_ids.getD (0 + i') 0 ≠ c.node_ids.getD (0 + i) 0 := by
      intro i' hi' hne hlt'
      simp only [Nat.zero_add]
      exact nodup_getD_ne c.node_ids hnodup i' i (by omega) (by omega) hne
    have hhit := storeFold_hit c.node_ids key cs 0 i c.nodes node
      (by omega) (by omega) hdist (by simpa using hnode)
    simp only [Nat.zero_add] at hhit
    rw [hhit, if_pos (havail i hi node hnode)]
  obtain ⟨nodej, hnodej⟩ := alookup_mem_keys c.nodes (c.node_ids.getD j 0)
    (getD_mem_of_lt c.node_ids j (by omega))
  have hstoredj := hstored j hj nodej hnodej
  refine ⟨_, hstore, ?_⟩
  have hfail : Cluster.fail_node
      { c with nodes := cs.enum.foldl (storeStepF c.node_ids key) c.nodes }
      (c.node_ids.getD j 0)
      = .ok { c with nodes := (aupdate
          (cs.enum.foldl (storeStepF c.node_ids key) c.nodes)
          (c.node_ids.getD j 0)
          ((nodej.store (chunkKey key j) (cs.getD j [])).1).fail) } := by
    unfold Cluster.fail_node
    simp only [hstoredj]
  refine ⟨_, hfail, ?_⟩
  have hkeys2 : (aupdate (cs.enum.foldl (storeStepF c.node_ids key) c.nodes)
      (c.node_ids.getD j 0)
      ((nodej.store (chunkKey key j) (cs.getD j [])).1).fail).map Prod.fst
      = c.nodes.map Prod.fst := by
    rw [aupdate_keys]
    exact storeFold_keys c.node_ids key cs.enum c.nodes
  rw [retrieve_data_eval { c with nodes := (aupdate
      (cs.enum.foldl (storeStepF c.node_ids key) c.nodes)
      (c.node_ids.getD j 0)
      ((nodej.store (chunkKey key j) (cs.getD j [])).1).fail) } s key hs]
  have hchunks : (List.range s.total_chunks).map (fun i =>
      if i < (Cluster.node_ids { c with nodes := (aupdate
          (cs.enum.foldl (storeStepF c.node_ids key) c.nodes)
          (c.node_ids.getD j 0)
          ((nodej.store (chunkKey key j) (cs.getD j [])).1).fail) }).length then
        match alookup (aupdate (cs.enum.foldl (storeStepF c.node_ids key) c.nodes)
            (c.node_ids.getD j 0)
            ((nodej.store (chunkKey key j) (cs.getD j [])).1).fail)
          ((Cluster.node_ids { c with nodes := (aupdate
              (cs.enum.foldl (storeStepF c.node_ids key) c.nodes)
              (c.node_ids.getD j 0)
              ((nodej.store (chunkKey key j) (cs.getD j [])).1).fail) }).getD i 0) with
        | some node =>
          match node.retrieve (chunkKey key i) with
          | .ok r => r
          | .error _ => none
        | none => none
      else none)
      = (cs.map some).set j none := by
    have hids2 : Cluster.node_ids { c with nodes := (aupdate
        (cs.enum.foldl (storeStepF c.node_ids key) c.nodes)
        (c.node_ids.getD j 0)
        ((nodej.store (chunkKey key j) (cs.getD j [])).1).fail) } = c.node_ids := by
      unfold Cluster.node_ids
      exact hkeys2
    rw [hids2]
    rw [show s.total_chunks = cs.length from hlen0.symm]
    rw [← range_map_ite_set cs j (by omega)]
    apply List.map_congr_left
    intro i hir
    have hi : i < cs.length := List.mem_range.mp hir
    rw [if_pos (by omega)]
    by_cases hij : i = j
    · rw [if_pos hij]
      subst hij
      rw [alookup_aupdate_self _ _ _ _ hstoredj]
      have hfl : (((nodej.store (chunkKey key i) (cs.getD i [])).1).fail).state
          = NodeState.Failed := rfl
      have hretr : (((nodej.store (chunkKey key i) (cs.getD i [])).1).fail).retrieve
          (chunkKey key i) = Except.error EErr.nodeUnavailable := by
        unfold Node.retrieve
        rw [if_pos hfl]
      show (match (((nodej.store (chunkKey key i) (cs.getD i [])).1).fail).retrieve
          (chunkKey key i) with
        | Except.ok r => r
        | Except.error _ => none) = (none : Option Chunk)
      rw [hretr]
    · rw [if_neg hij]
      have hne : c.node_ids.getD i 0 ≠ c.node_ids.getD j 0 :=
        nodup_getD_ne c.node_ids hnodup i j (by omega) (by omega) hij
      rw [alookup_aupdate_ne _ _ _ _ hne]
      obtain ⟨nodei, hnodei⟩ := alookup_mem_keys c.nodes (c.node_ids.getD i 0)
        (getD_mem_of_lt c.node_ids i (by omega))
      rw [hstored i (by omega) nodei hnodei]
      have hinf : nodei.state ≠ .Failed :=
        (is_available_iff nodei).mp (havail i (by omega) nodei hnodei)
      have hsf : ((nodei.store (chunkKey key i) (cs.getD i [])).1).state
          = nodei.state := store_fst_state nodei _ _ hinf
      show (match ((nodei.store (chunkKey key i) (cs.getD i [])).1).retrieve
          (chunkKey key i) with
        | Except.ok r => r
        | Except.error _ => none) = some (cs.getD i [])
      rw [retrieve_of_not_failed _ _ (by rw [hsf]; exact hinf)]
      show dlookup (((nodei.store (chunkKey key i) (cs.getD i [])).1)).data
        (chunkKey key i) = some (cs.getD i [])
      rw [store_fst_data nodei _ _ hinf, dlookup_dinsert]
  rw [hchunks]
  exact SimpleParityScheme.decode_set_none s data cs j hk hm (by omega)
    hlast henc

/-- Witness for C4: a fresh 2-node cluster with a `(1, 1)` scheme stores
`[7]`, survives failing the node that holds the data chunk, and still
retrieves `[7]`. -/
theorem C4_store_fail_retrieve_witness :
    ∃ c1, (⟨[(0, Node.new 0), (1, Node.new 1)], 2, some ⟨1, 1⟩⟩ : Cluster).store_data
        "k" [7] = .ok c1 ∧
    ∃ c2, c1.fail_node
        ((⟨[(0, Node.new 0), (1, Node.new 1)], 2, some ⟨1, 1⟩⟩ : Cluster).node_ids.getD 0 0)
        = .ok c2 ∧
      c2.retrieve_data "k" = .ok [7] :=
  C4_store_fail_retrieve
    ⟨[(0, Node.new 0), (1, Node.new 1)], 2, some ⟨1, 1⟩⟩ ⟨1, 1⟩ "k" [7] 0
    (by decide) (by decide) rfl (by decide) (by decide)
    (by
      intro i hi node hnode
      interval_cases i <;> (injection hnode with h; subst h; decide))
    (by decide) (by decide)

/-- C4 counterexample: the claim as stated admits clusters with a pre-failed
assigned node at store time, and there it is false.  On a 4-node cluster
with a `(2, 2)` scheme whose parity-0 target (node 2) is already Failed,
`store_data "k" [1, 2]` still succeeds — the parity-0 chunk is silently
dropped — and after failing node 0 (the only failed data-chunk-bearing
node, so the claim's proviso holds) `retrieve_data` returns `[0, 2]`
instead of the stored payload `[1, 2]`: recovery falls back to parity
chunk 1, whose XOR pattern covers only data chunk 1. -/
theorem C4_counterexample :
    Cluster.store_data
        ⟨[(0, Node.new 0), (1, Node.new 1), (2, Node.with_state 2 .Failed),
          (3, Node.new 3)], 4, some ⟨2, 2⟩⟩ "k" [1, 2]
      = .ok ⟨[(0, ⟨0, .Healthy, [("k_0", [1])], ⟨1, 1, 0, 1⟩, 10⟩),
              (1, ⟨1, .Healthy, [("k_1", [2])], ⟨1, 1, 0, 1⟩, 10⟩),
              (2, ⟨2, .Failed, [], ⟨0, 0, 0, 0⟩, 0⟩),
              (3, ⟨3, .Healthy, [("k_3", [2])], ⟨1, 1, 0, 1⟩, 10⟩)],
             4, some ⟨2, 2⟩⟩ ∧
    Cluster.fail_node
        ⟨[(0, ⟨0, .Healthy, [("k_0", [1])], ⟨1, 1, 0, 1⟩, 10⟩),
          (1, ⟨1, .Healthy, [("k_1", [2])], ⟨1, 1, 0, 1⟩, 10⟩),
          (2, ⟨2, .Failed, [], ⟨0, 0, 0, 0⟩, 0⟩),
          (3, ⟨3, .Healthy, [("k_3", [2])], ⟨1, 1, 0, 1⟩, 10⟩)],
         4, some ⟨2, 2⟩⟩ 0
      = .ok ⟨[(0, ⟨0, .Failed, [("k_0", [1])], ⟨1, 1, 0, 1⟩, 0⟩),
              (1, ⟨1, .Healthy, [("k_1", [2])], ⟨1, 1, 0, 1⟩, 10⟩),
              (2, ⟨2, .Failed, [], ⟨0, 0, 0, 0⟩, 0⟩),
              (3, ⟨3, .Healthy, [("k_3", [2])], ⟨1, 1, 0, 1⟩, 10⟩)],
             4, some ⟨2, 2⟩⟩ ∧
    Cluster.retrieve_data
        ⟨[(0, ⟨0, .Failed, [("k_0", [1])], ⟨1, 1, 0, 1⟩, 0⟩),
          (1, ⟨1, .Healthy, [("k_1", [2])], ⟨1, 1, 0, 1⟩, 10⟩),
          (2, ⟨2, .Failed, [], ⟨0, 0, 0, 0⟩, 0⟩),
          (3, ⟨3, .Healthy, [("k_3", [2])], ⟨1, 1, 0, 1⟩, 10⟩)],
         4, some ⟨2, 2⟩⟩ "k"
      = .ok [0, 2] ∧
    ([0, 2] : List Nat) ≠ [1, 2] :=
  ⟨rfl, rfl, rfl, by decide⟩
